import Mathlib

/-!
# uThreads: the per-cluster ready queue (`src/runtime/ReadyQueue.h`)

A shallow embedding of class `ReadyQueue` and proofs about it.

* A `uThread*` / `kThread*` is an identity (a natural number).
* `IntrusiveList<T>` lives in `generic/IntrusiveContainers.h`, which is not among
  the sources at hand; it is modelled as a Lean list, head of the list = front.
* `size` is a `volatile unsigned int`: every write to it is reduced modulo `2^32`.
* `std::mutex mtx`: each locked critical section is one atomic function of the
  state.  The outcome of `std::try_to_lock` is an input (`owns_lock`).
* `kThread::currentKT->localCluster->getNumberOfkThreads()` is an input (`numkt`).
* `assert` failing, or a list transfer asked for more elements than its source
  holds, ends the call with a `Fault`.
-/

namespace UThreads

/-- Identity of a user-level thread (the queue only ever handles `uThread*`). -/
abbrev uThread := Nat

/-- Identity of a kernel thread (`kThread*`). -/
abbrev kThread := Nat

/-- Number of values of an `unsigned int` (32 bits). -/
def UINT_RANGE : Nat := 4294967296

/-- Conversion of an integer result to `unsigned int`: reduction modulo `2^32`. -/
def toUInt (n : Int) : Nat := (n % 4294967296).toNat

/-- Ways a call can end without returning. -/
inductive Fault where
  /-- An `assert(...)` did not hold. -/
  | assertion
  /-- A list transfer was asked for more elements than its source holds. -/
  | contract
deriving DecidableEq

/-- Modelled from the spec: `IntrusiveList<T>` of `generic/IntrusiveContainers.h`
(absent from the sources), "a container where link pointers live inside the
element type itself"; an ordered sequence, first element = front. -/
abbrev IntrusiveList (α : Type) := List α

namespace IntrusiveList

variable {α : Type}

/-- Modelled from the spec: `IntrusiveList::empty()`, whether the sequence "has zero" elements. -/
def empty (l : IntrusiveList α) : Bool := l.isEmpty

/-- Modelled from the spec: `IntrusiveList::front()`, the element at the head (none on an empty list). -/
def front (l : IntrusiveList α) : Option α := l.head?

/-- Modelled from the spec: `IntrusiveList::back()`, the element at the tail (none on an empty list). -/
def back (l : IntrusiveList α) : Option α := l.getLast?

/-- Modelled from the spec: `IntrusiveList::push_back(x)`, "inserts one task at the tail". -/
def push_back (l : IntrusiveList α) (x : α) : IntrusiveList α := l ++ [x]

/-- Modelled from the spec: `IntrusiveList::pop_front()`, removal of the head element. -/
def pop_front (l : IntrusiveList α) : IntrusiveList α := l.tail

/-- Modelled from the spec: `IntrusiveList::pop_back()`, removal of the tail element. -/
def pop_back (l : IntrusiveList α) : IntrusiveList α := l.dropLast

/-- Modelled from the spec: `self.transferFrom(od, count)` "transfers `count` tasks
from a caller-supplied sequence onto the tail" of `self`, "in original order, from
the head" of `od`.  The result is the pair (new `self`, new `od`).  The spec gives
no meaning to a transfer of more elements than `od` holds: no result then. -/
def transferFrom (self od : IntrusiveList α) (count : Nat) :
    Option (IntrusiveList α × IntrusiveList α) :=
  if count ≤ od.length then some (self ++ od.take count, od.drop count) else none

end IntrusiveList

/-- The data members of a `ReadyQueue` (`queue`, `ktStack`, `size`; `mtx` is
rendered by atomicity of the operations) together with the `cv_flag` member of
every `kThread`. -/
structure State where
  /-- The main producer-consumer queue of uThreads. -/
  queue : IntrusiveList uThread
  /-- The stack of kThreads blocked on the queue. -/
  ktStack : IntrusiveList kThread
  /-- The ready count, an `unsigned int`. -/
  size : Nat
  /-- The `cv_flag` of each kThread. -/
  cv_flag : kThread → Bool

/-- The constructor `ReadyQueue() : size(0)`: both lists empty, count zero. -/
def State.init (flags : kThread → Bool) : State :=
  { queue := [], ktStack := [], size := 0, cv_flag := flags }

/-- `ReadyQueue::removeMany(nqueue)`, with `numkt` the value read from the cluster.
Returns `(popnum, state, nqueue)`.  The assignment `ut = queue.front()` has no
effect (the variable is never read).  `popnum` is at most `max 1 size`, so its
conversion to `ssize_t` keeps the value. -/
def removeMany (s : State) (numkt : Nat) (nqueue : IntrusiveList uThread) :
    Except Fault (Int × State × IntrusiveList uThread) :=
  if numkt = 0 then .error Fault.assertion
  else
    let popnum : Nat := if s.size / numkt ≠ 0 then s.size / numkt else 1
    match IntrusiveList.transferFrom nqueue s.queue popnum with
    | none => .error Fault.contract
    | some (nq, q) =>
      .ok ((popnum : Int),
           { s with queue := q, size := toUInt ((s.size : Int) - (popnum : Int)) },
           nq)

/-- `ReadyQueue::unBlock()`: when `ktStack` is not empty, take the kThread at its
back off the stack and set its `cv_flag`.  `kt->cv.notify_one()` changes no data
member: the notified kThread continues in a later step (`popMany_resume`). -/
def unBlock (s : State) : State :=
  if ¬ s.ktStack.empty then
    match s.ktStack.back with
    | some kt =>
      { s with ktStack := s.ktStack.pop_back, cv_flag := Function.update s.cv_flag kt true }
    | none => s
  else s

/-- `ReadyQueue::tryPop()`: `owns_lock` is the outcome of `std::try_to_lock`;
the result is the returned pointer (`none` for `nullptr`) and the new state.
`size--` runs under `size != 0`. -/
def tryPop (s : State) (owns_lock : Bool) : Option uThread × State :=
  if owns_lock = true ∧ s.size ≠ 0 then
    (s.queue.front,
     { s with queue := s.queue.pop_front, size := toUInt ((s.size : Int) - 1) })
  else (none, s)

/-- `ReadyQueue::tryPopMany(nqueue)`: `-1` when the lock is not owned or `size == 0`,
else the result of `removeMany`. -/
def tryPopMany (s : State) (owns_lock : Bool) (numkt : Nat)
    (nqueue : IntrusiveList uThread) :
    Except Fault (Int × State × IntrusiveList uThread) :=
  if owns_lock = false ∨ s.size = 0 then .ok (-1, s, nqueue)
  else removeMany s numkt nqueue

/-- How a critical section of `popMany` ends: the call returns `res` (with the
destination list as it then is), or the caller is suspended in `cv.wait`. -/
inductive PopResult where
  /-- `return res`. -/
  | returned (res : Int) (nqueue : IntrusiveList uThread)
  /-- The kThread sits in `cv.wait(mlock)`, the lock released. -/
  | suspended

/-- Lines 86-97 of `popMany`: `removeMany`, then one `unBlock` if `size != 0`. -/
def popMany_remove (s : State) (numkt : Nat) (nqueue : IntrusiveList uThread) :
    Except Fault (State × PopResult) :=
  match removeMany s numkt nqueue with
  | .error e => .error e
  | .ok (res, s1, nq) =>
    .ok (if s1.size ≠ 0 then unBlock s1 else s1, PopResult.returned res nq)

/-- `ReadyQueue::popMany(nqueue)` called by kThread `currentKT`, from the
acquisition of the lock to its first release.  The spin loop before the lock
only reads `size`.  With `size == 0` the caller is pushed on `ktStack`, its
`cv_flag` is cleared and, the loop condition `size == 0 || !cv_flag` being true,
it waits. -/
def popMany (s : State) (currentKT : kThread) (numkt : Nat)
    (nqueue : IntrusiveList uThread) : Except Fault (State × PopResult) :=
  if s.size = 0 then
    .ok ({ s with ktStack := s.ktStack.push_back currentKT,
                  cv_flag := Function.update s.cv_flag currentKT false },
         PopResult.suspended)
  else popMany_remove s numkt nqueue

/-- A return of `cv.wait(mlock)` inside `popMany` (notified or spurious), the
lock held again: the loop condition `size == 0 || !cv_flag` is evaluated; the
kThread waits again if it holds, else goes on to line 86. -/
def popMany_resume (s : State) (currentKT : kThread) (numkt : Nat)
    (nqueue : IntrusiveList uThread) : Except Fault (State × PopResult) :=
  if s.size = 0 ∨ s.cv_flag currentKT = false then .ok (s, PopResult.suspended)
  else popMany_remove s numkt nqueue

/-- `ReadyQueue::push(ut)`. -/
def push (s : State) (ut : uThread) : State :=
  unBlock { s with queue := s.queue.push_back ut, size := toUInt ((s.size : Int) + 1) }

/-- `ReadyQueue::pushMany(utList, count)`; returns the new state and what is left
of `utList`. -/
def pushMany (s : State) (utList : IntrusiveList uThread) (count : Nat) :
    Except Fault (State × IntrusiveList uThread) :=
  match IntrusiveList.transferFrom s.queue utList count with
  | none => .error Fault.contract
  | some (q, rest) =>
    .ok (unBlock { s with queue := q, size := toUInt ((s.size : Int) + (count : Int)) },
         rest)

/-- `ReadyQueue::empty()`. -/
def empty (s : State) : Bool := s.queue.empty

/-! ### Interleavings: one step per locked critical section -/

/-- State of the queue and its kThreads, with the set of kThreads that are
suspended in the `cv.wait` of `popMany`. -/
structure Sys where
  /-- Data members. -/
  st : State
  /-- The kThreads currently inside `cv.wait`. -/
  waiting : List kThread

/-- A fresh queue, nobody waiting. -/
def Sys.init (flags : kThread → Bool) : Sys :=
  { st := State.init flags, waiting := [] }

/-- The atomic steps: one per call of `push`, `pushMany`, `tryPop`, `tryPopMany`;
for `popMany` one for the call (`popMany`) and one for each return of `cv.wait`
(`resume`). -/
inductive Op where
  /-- `push(ut)`. -/
  | push (ut : uThread)
  /-- `pushMany(utList, count)`. -/
  | pushMany (utList : IntrusiveList uThread) (count : Nat)
  /-- `tryPop()` with the outcome of the try-lock. -/
  | tryPop (owns_lock : Bool)
  /-- `tryPopMany(nqueue)` with the outcome of the try-lock. -/
  | tryPopMany (owns_lock : Bool) (numkt : Nat) (nqueue : IntrusiveList uThread)
  /-- `popMany(nqueue)` called by `currentKT`. -/
  | popMany (currentKT : kThread) (numkt : Nat) (nqueue : IntrusiveList uThread)
  /-- `cv.wait` returns in the `popMany(nqueue)` of `currentKT`. -/
  | resume (currentKT : kThread) (numkt : Nat) (nqueue : IntrusiveList uThread)

/-- The tasks a removal handed to its caller: what it appended to the destination. -/
def delivered (nqueue nqueue1 : IntrusiveList uThread) : List uThread :=
  nqueue1.drop nqueue.length

/-- One atomic step; the result is the new state and the batch delivered to the
caller (empty for pushes, failed tries and suspensions).  No result when the
call faults, when a suspended kThread would call `popMany`, or when a kThread
that is not suspended would return from `cv.wait`. -/
def step (sys : Sys) : Op → Option (Sys × List uThread)
  | Op.push ut => some ({ sys with st := push sys.st ut }, [])
  | Op.pushMany utList count =>
    match pushMany sys.st utList count with
    | .ok (s, _) => some ({ sys with st := s }, [])
    | .error _ => none
  | Op.tryPop owns_lock =>
    some ({ sys with st := (tryPop sys.st owns_lock).2 }, (tryPop sys.st owns_lock).1.toList)
  | Op.tryPopMany owns_lock numkt nqueue =>
    match tryPopMany sys.st owns_lock numkt nqueue with
    | .ok (_, s, nq) => some ({ sys with st := s }, delivered nqueue nq)
    | .error _ => none
  | Op.popMany currentKT numkt nqueue =>
    if currentKT ∈ sys.waiting then none
    else
      match popMany sys.st currentKT numkt nqueue with
      | .ok (s, PopResult.returned _ nq) => some ({ sys with st := s }, delivered nqueue nq)
      | .ok (s, PopResult.suspended) =>
        some ({ st := s, waiting := currentKT :: sys.waiting }, [])
      | .error _ => none
  | Op.resume currentKT numkt nqueue =>
    if currentKT ∈ sys.waiting then
      match popMany_resume sys.st currentKT numkt nqueue with
      | .ok (s, PopResult.returned _ nq) =>
        some ({ st := s, waiting := sys.waiting.erase currentKT }, delivered nqueue nq)
      | .ok (s, PopResult.suspended) => some ({ sys with st := s }, [])
      | .error _ => none
    else none

/-- A sequence of steps; the result is the final state and the delivered batches
in call order. -/
def run (sys : Sys) : List Op → Option (Sys × List (List uThread))
  | [] => some (sys, [])
  | op :: ops =>
    match step sys op with
    | none => none
    | some (sys1, batch) =>
      match run sys1 ops with
      | none => none
      | some (sys2, batches) => some (sys2, batch :: batches)

/-- The tasks a step puts into the ready queue, in order. -/
def Op.pushed : Op → List uThread
  | Op.push ut => [ut]
  | Op.pushMany utList count => utList.take count
  | _ => []

/-- All tasks pushed by a sequence of steps, in push order. -/
def pushedBy (ops : List Op) : List uThread :=
  (ops.map Op.pushed).flatten

/-- Successive `removeMany` calls on one queue with `numkt` workers and no push in
between: while `size != 0` (the guard of both call sites) and for at most the
given number of calls, the returned batch sizes in call order. -/
def successiveBatches (numkt : Nat) : Nat → State → List Int
  | 0, _ => []
  | n + 1, s =>
    if s.size = 0 then []
    else
      match removeMany s numkt [] with
      | .ok (r, s1, _) => r :: successiveBatches numkt n s1
      | .error _ => []

/-- What a critical section may do to `ktStack` and the flags besides blocking its
caller: nothing, or one `unBlock` that takes the kThread at the back off the
stack and sets its `cv_flag`. -/
def WakeStep (s s1 : State) : Prop :=
  (s1.ktStack = s.ktStack ∧ s1.cv_flag = s.cv_flag) ∨
    ∃ rest kt, s.ktStack = rest ++ [kt] ∧ s1.ktStack = rest ∧
      s1.cv_flag = Function.update s.cv_flag kt true

/-- The blocked-kThread stack is in order: no kThread twice, every kThread on it
has its `cv_flag` clear and is suspended in `cv.wait`. -/
def StackOK (sys : Sys) : Prop :=
  sys.st.ktStack.Nodup ∧
    ∀ kt ∈ sys.st.ktStack, sys.st.cv_flag kt = false ∧ kt ∈ sys.waiting

/-- The ready count agrees with the task sequence up to the width of `size`. -/
def CountOK (s : State) : Prop :=
  s.size = s.queue.length % UINT_RANGE

instance (s : State) : Decidable (CountOK s) := by
  unfold CountOK; infer_instance

end UThreads


namespace UThreads

/-! ### Arithmetic of the 32-bit count -/

theorem toUInt_sub_of_le (a b : Nat) (hb : b ≤ a) (ha : a < UINT_RANGE) :
    toUInt ((a : Int) - (b : Int)) = a - b := by
  unfold UINT_RANGE at ha
  unfold toUInt
  omega

theorem toUInt_add (a b : Nat) : toUInt ((a : Int) + (b : Int)) = (a + b) % UINT_RANGE := by
  unfold toUInt UINT_RANGE
  omega

theorem popnum_eq_max (R W : Nat) :
    (if R / W ≠ 0 then R / W else 1) = max 1 (R / W) := by
  generalize R / W = q
  split <;> omega

theorem batch_le_count (R W : Nat) (hR : 1 ≤ R) : max 1 (R / W) ≤ R := by
  have h : R / W ≤ R := Nat.div_le_self R W
  generalize R / W = q at h ⊢
  omega

/-! ### `removeMany` -/

theorem removeMany_ok (s : State) (numkt : Nat) (nqueue : IntrusiveList uThread)
    (hk : numkt ≠ 0) (hlen : max 1 (s.size / numkt) ≤ s.queue.length) :
    removeMany s numkt nqueue =
      .ok (((max 1 (s.size / numkt) : Nat) : Int),
           { s with queue := s.queue.drop (max 1 (s.size / numkt)),
                    size := toUInt ((s.size : Int) - ((max 1 (s.size / numkt) : Nat) : Int)) },
           nqueue ++ s.queue.take (max 1 (s.size / numkt))) := by
  unfold removeMany IntrusiveList.transferFrom
  rw [popnum_eq_max]
  simp [hk, hlen]

theorem removeMany_inv (s : State) (numkt : Nat) (nqueue : IntrusiveList uThread)
    (r : Int) (s1 : State) (nq : IntrusiveList uThread)
    (h : removeMany s numkt nqueue = .ok (r, s1, nq)) :
    numkt ≠ 0 ∧ max 1 (s.size / numkt) ≤ s.queue.length ∧
      r = ((max 1 (s.size / numkt) : Nat) : Int) ∧
      s1 = { s with queue := s.queue.drop (max 1 (s.size / numkt)),
                    size := toUInt ((s.size : Int) - ((max 1 (s.size / numkt) : Nat) : Int)) } ∧
      nq = nqueue ++ s.queue.take (max 1 (s.size / numkt)) := by
  by_cases hk : numkt = 0
  · simp [removeMany, hk] at h
  · by_cases hlen : max 1 (s.size / numkt) ≤ s.queue.length
    · rw [removeMany_ok s numkt nqueue hk hlen] at h
      simp only [Except.ok.injEq, Prod.mk.injEq] at h
      obtain ⟨h1, h2, h3⟩ := h
      exact ⟨hk, hlen, h1.symm, h2.symm, h3.symm⟩
    · unfold removeMany IntrusiveList.transferFrom at h
      rw [popnum_eq_max] at h
      simp [hk, hlen] at h

theorem delivered_append (nqueue batch : IntrusiveList uThread) :
    delivered nqueue (nqueue ++ batch) = batch := by
  unfold delivered
  exact List.drop_left nqueue batch

theorem delivered_self (nqueue : IntrusiveList uThread) : delivered nqueue nqueue = [] := by
  unfold delivered
  exact List.drop_length nqueue

theorem removeMany_queue (s : State) (numkt : Nat) (nqueue : IntrusiveList uThread)
    (r : Int) (s1 : State) (nq : IntrusiveList uThread)
    (h : removeMany s numkt nqueue = .ok (r, s1, nq)) :
    delivered nqueue nq ++ s1.queue = s.queue := by
  obtain ⟨_, _, _, h2, h3⟩ := removeMany_inv s numkt nqueue r s1 nq h
  subst h2 h3
  rw [delivered_append]
  exact List.take_append_drop _ _

theorem removeMany_frame (s : State) (numkt : Nat) (nqueue : IntrusiveList uThread)
    (r : Int) (s1 : State) (nq : IntrusiveList uThread)
    (h : removeMany s numkt nqueue = .ok (r, s1, nq)) :
    s1.ktStack = s.ktStack ∧ s1.cv_flag = s.cv_flag := by
  obtain ⟨_, _, _, h2, _⟩ := removeMany_inv s numkt nqueue r s1 nq h
  subst h2
  exact ⟨rfl, rfl⟩

theorem removeMany_countOK (s : State) (numkt : Nat) (nqueue : IntrusiveList uThread)
    (r : Int) (s1 : State) (nq : IntrusiveList uThread)
    (h : removeMany s numkt nqueue = .ok (r, s1, nq)) (hc : CountOK s) : CountOK s1 := by
  obtain ⟨_, hlen, _, h2, _⟩ := removeMany_inv s numkt nqueue r s1 nq h
  generalize max 1 (s.size / numkt) = b at hlen h2
  subst h2
  unfold CountOK UINT_RANGE at hc ⊢
  simp only [List.length_drop]
  unfold toUInt
  omega

/-! ### `unBlock` -/

@[simp] theorem unBlock_queue (s : State) : (unBlock s).queue = s.queue := by
  unfold unBlock
  split
  · split <;> rfl
  · rfl

@[simp] theorem unBlock_size (s : State) : (unBlock s).size = s.size := by
  unfold unBlock
  split
  · split <;> rfl
  · rfl

theorem unBlock_nil (s : State) (h : s.ktStack = []) : unBlock s = s := by
  unfold unBlock
  simp [h, IntrusiveList.empty]

theorem unBlock_snoc (s : State) (rest : List kThread) (kt : kThread)
    (h : s.ktStack = rest ++ [kt]) :
    unBlock s = { s with ktStack := rest, cv_flag := Function.update s.cv_flag kt true } := by
  unfold unBlock
  simp [h, IntrusiveList.empty, IntrusiveList.back, IntrusiveList.pop_back]

theorem unBlock_countOK (s : State) (hc : CountOK s) : CountOK (unBlock s) := by
  unfold CountOK at hc ⊢
  simpa using hc

/-! ### The other operations -/

theorem push_queue (s : State) (ut : uThread) : (push s ut).queue = s.queue ++ [ut] := by
  simp [push, IntrusiveList.push_back]

theorem push_size (s : State) (ut : uThread) :
    (push s ut).size = (s.size + 1) % UINT_RANGE := by
  simp only [push, unBlock_size]
  exact toUInt_add s.size 1

theorem pushMany_inv (s : State) (utList : IntrusiveList uThread) (count : Nat)
    (s1 : State) (rest : IntrusiveList uThread)
    (h : pushMany s utList count = .ok (s1, rest)) :
    count ≤ utList.length ∧
      s1 = unBlock { s with queue := s.queue ++ utList.take count,
                            size := toUInt ((s.size : Int) + (count : Int)) } ∧
      rest = utList.drop count := by
  unfold pushMany IntrusiveList.transferFrom at h
  by_cases hc : count ≤ utList.length
  · simp only [hc, if_true, Except.ok.injEq, Prod.mk.injEq] at h
    exact ⟨hc, h.1.symm, h.2.symm⟩
  · simp [hc] at h

theorem pushMany_ok (s : State) (utList : IntrusiveList uThread) (count : Nat)
    (hc : count ≤ utList.length) :
    pushMany s utList count =
      .ok (unBlock { s with queue := s.queue ++ utList.take count,
                            size := toUInt ((s.size : Int) + (count : Int)) },
           utList.drop count) := by
  unfold pushMany IntrusiveList.transferFrom
  simp [hc]

theorem tryPop_queue (s : State) (owns_lock : Bool) :
    (tryPop s owns_lock).1.toList ++ (tryPop s owns_lock).2.queue = s.queue := by
  unfold tryPop
  split
  · cases hq : s.queue <;> simp [IntrusiveList.front, IntrusiveList.pop_front]
  · simp

theorem tryPop_countOK (s : State) (owns_lock : Bool) (hc : CountOK s) :
    CountOK (tryPop s owns_lock).2 := by
  unfold tryPop
  split
  · rename_i h
    unfold CountOK at hc ⊢
    simp only [IntrusiveList.pop_front, List.length_tail]
    have h2 := h.2
    rw [hc] at h2 ⊢
    unfold toUInt
    unfold UINT_RANGE at h2 ⊢
    omega
  · exact hc

theorem tryPopMany_inv (s : State) (owns_lock : Bool) (numkt : Nat)
    (nqueue : IntrusiveList uThread) (r : Int) (s1 : State) (nq : IntrusiveList uThread)
    (h : tryPopMany s owns_lock numkt nqueue = .ok (r, s1, nq)) :
    ((owns_lock = false ∨ s.size = 0) ∧ r = -1 ∧ s1 = s ∧ nq = nqueue) ∨
    (owns_lock = true ∧ s.size ≠ 0 ∧ removeMany s numkt nqueue = .ok (r, s1, nq)) := by
  unfold tryPopMany at h
  split at h
  · rename_i hc
    simp only [Except.ok.injEq, Prod.mk.injEq] at h
    exact Or.inl ⟨hc, h.1.symm, h.2.1.symm, h.2.2.symm⟩
  · rename_i hc
    refine Or.inr ⟨?_, ?_, h⟩
    · cases owns_lock <;> simp_all
    · intro h0
      exact hc (Or.inr h0)

theorem popMany_remove_inv (s : State) (numkt : Nat) (nqueue : IntrusiveList uThread)
    (s2 : State) (pr : PopResult) (h : popMany_remove s numkt nqueue = .ok (s2, pr)) :
    ∃ r s1 nq, removeMany s numkt nqueue = .ok (r, s1, nq) ∧
      pr = PopResult.returned r nq ∧ s2 = (if s1.size ≠ 0 then unBlock s1 else s1) := by
  unfold popMany_remove at h
  split at h
  · simp at h
  · rename_i r s1 nq heq
    simp only [Except.ok.injEq, Prod.mk.injEq] at h
    exact ⟨r, s1, nq, heq, h.2.symm, h.1.symm⟩

/-- What a critical section of `popMany` hands to its caller. -/
theorem popMany_remove_spec (s : State) (numkt : Nat) (nqueue : IntrusiveList uThread)
    (s2 : State) (pr : PopResult) (h : popMany_remove s numkt nqueue = .ok (s2, pr)) :
    (∃ r nq, pr = PopResult.returned r nq ∧ delivered nqueue nq ++ s2.queue = s.queue) ∧
      (CountOK s → CountOK s2) := by
  obtain ⟨r, s1, nq, hrm, hpr, hs2⟩ := popMany_remove_inv s numkt nqueue s2 pr h
  have hq := removeMany_queue s numkt nqueue r s1 nq hrm
  have hs2q : s2.queue = s1.queue := by
    rw [hs2]
    split <;> simp
  refine ⟨⟨r, nq, hpr, by rw [hs2q]; exact hq⟩, fun hc => ?_⟩
  have hc1 := removeMany_countOK s numkt nqueue r s1 nq hrm hc
  rw [hs2]
  split
  · exact unBlock_countOK s1 hc1
  · exact hc1

theorem popMany_spec (s : State) (kt : kThread) (numkt : Nat) (nqueue : IntrusiveList uThread)
    (s2 : State) (pr : PopResult) (h : popMany s kt numkt nqueue = .ok (s2, pr)) :
    ((pr = PopResult.suspended ∧ s2.queue = s.queue) ∨
      (∃ r nq, pr = PopResult.returned r nq ∧ delivered nqueue nq ++ s2.queue = s.queue)) ∧
      (CountOK s → CountOK s2) := by
  unfold popMany at h
  split at h
  · simp only [Except.ok.injEq, Prod.mk.injEq] at h
    obtain ⟨h1, h2⟩ := h
    subst h1 h2
    exact ⟨Or.inl ⟨rfl, rfl⟩, fun hc => hc⟩
  · obtain ⟨h1, h2⟩ := popMany_remove_spec s numkt nqueue s2 pr h
    exact ⟨Or.inr h1, h2⟩

theorem popMany_resume_spec (s : State) (kt : kThread) (numkt : Nat)
    (nqueue : IntrusiveList uThread) (s2 : State) (pr : PopResult)
    (h : popMany_resume s kt numkt nqueue = .ok (s2, pr)) :
    ((pr = PopResult.suspended ∧ s2.queue = s.queue) ∨
      (∃ r nq, pr = PopResult.returned r nq ∧ delivered nqueue nq ++ s2.queue = s.queue)) ∧
      (CountOK s → CountOK s2) := by
  unfold popMany_resume at h
  split at h
  · simp only [Except.ok.injEq, Prod.mk.injEq] at h
    obtain ⟨h1, h2⟩ := h
    subst h1 h2
    exact ⟨Or.inl ⟨rfl, rfl⟩, fun hc => hc⟩
  · obtain ⟨h1, h2⟩ := popMany_remove_spec s numkt nqueue s2 pr h
    exact ⟨Or.inr h1, h2⟩

/-! ### Steps and runs -/

theorem step_spec (sys : Sys) (op : Op) (sys1 : Sys) (batch : List uThread)
    (h : step sys op = some (sys1, batch)) :
    batch ++ sys1.st.queue = sys.st.queue ++ op.pushed ∧
      (CountOK sys.st → CountOK sys1.st) := by
  cases op with
  | push ut =>
    simp only [step, Option.some.injEq, Prod.mk.injEq] at h
    obtain ⟨h1, h2⟩ := h
    subst h1 h2
    refine ⟨by simp [Op.pushed, push_queue], fun hc => ?_⟩
    unfold CountOK at hc ⊢
    simp only [push_queue, push_size, List.length_append, List.length_singleton]
    rw [hc]
    unfold UINT_RANGE
    omega
  | pushMany utList count =>
    simp only [step] at h
    split at h
    · rename_i s rest heq
      obtain ⟨hle, hs, _⟩ := pushMany_inv _ _ _ _ _ heq
      simp only [Option.some.injEq, Prod.mk.injEq] at h
      obtain ⟨h1, h2⟩ := h
      subst h1 h2 hs
      refine ⟨by simp [Op.pushed], fun hc => ?_⟩
      apply unBlock_countOK
      unfold CountOK at hc ⊢
      simp only [List.length_append, List.length_take]
      rw [hc, toUInt_add]
      unfold UINT_RANGE
      omega
    · simp at h
  | tryPop owns_lock =>
    simp only [step, Option.some.injEq, Prod.mk.injEq] at h
    obtain ⟨h1, h2⟩ := h
    subst h1 h2
    exact ⟨by simpa [Op.pushed] using tryPop_queue sys.st owns_lock,
      tryPop_countOK sys.st owns_lock⟩
  | tryPopMany owns_lock numkt nqueue =>
    simp only [step] at h
    split at h
    · rename_i r s nq heq
      simp only [Option.some.injEq, Prod.mk.injEq] at h
      obtain ⟨h1, h2⟩ := h
      subst h1 h2
      rcases tryPopMany_inv _ _ _ _ _ _ _ heq with ⟨_, _, hs, hn⟩ | ⟨_, _, hrm⟩
      · subst hs hn
        exact ⟨by simp [Op.pushed, delivered_self], fun hc => hc⟩
      · exact ⟨by simpa [Op.pushed] using removeMany_queue _ _ _ _ _ _ hrm,
          removeMany_countOK _ _ _ _ _ _ hrm⟩
    · simp at h
  | popMany kt numkt nqueue =>
    simp only [step] at h
    split at h
    · simp at h
    · split at h
      · rename_i s r nq heq
        simp only [Option.some.injEq, Prod.mk.injEq] at h
        obtain ⟨h1, h2⟩ := h
        subst h1 h2
        obtain ⟨hq, hc⟩ := popMany_spec _ _ _ _ _ _ heq
        rcases hq with ⟨hpr, _⟩ | ⟨r1, nq1, hpr, hq⟩
        · simp at hpr
        · simp only [PopResult.returned.injEq] at hpr
          obtain ⟨_, hnq⟩ := hpr
          subst hnq
          exact ⟨by simpa [Op.pushed] using hq, hc⟩
      · rename_i s heq
        simp only [Option.some.injEq, Prod.mk.injEq] at h
        obtain ⟨h1, h2⟩ := h
        subst h1 h2
        obtain ⟨hq, hc⟩ := popMany_spec _ _ _ _ _ _ heq
        rcases hq with ⟨_, hq⟩ | ⟨r1, nq1, hpr, _⟩
        · exact ⟨by simpa [Op.pushed] using hq, hc⟩
        · simp at hpr
      · simp at h
  | resume kt numkt nqueue =>
    simp only [step] at h
    split at h
    · split at h
      · rename_i s r nq heq
        simp only [Option.some.injEq, Prod.mk.injEq] at h
        obtain ⟨h1, h2⟩ := h
        subst h1 h2
        obtain ⟨hq, hc⟩ := popMany_resume_spec _ _ _ _ _ _ heq
        rcases hq with ⟨hpr, _⟩ | ⟨r1, nq1, hpr, hq⟩
        · simp at hpr
        · simp only [PopResult.returned.injEq] at hpr
          obtain ⟨_, hnq⟩ := hpr
          subst hnq
          exact ⟨by simpa [Op.pushed] using hq, hc⟩
      · rename_i s heq
        simp only [Option.some.injEq, Prod.mk.injEq] at h
        obtain ⟨h1, h2⟩ := h
        subst h1 h2
        obtain ⟨hq, hc⟩ := popMany_resume_spec _ _ _ _ _ _ heq
        rcases hq with ⟨_, hq⟩ | ⟨r1, nq1, hpr, _⟩
        · exact ⟨by simpa [Op.pushed] using hq, hc⟩
        · simp at hpr
      · simp at h
    · simp at h

theorem run_spec (ops : List Op) :
    ∀ (sys sys1 : Sys) (batches : List (List uThread)),
      run sys ops = some (sys1, batches) →
      batches.flatten ++ sys1.st.queue = sys.st.queue ++ pushedBy ops ∧
        (CountOK sys.st → CountOK sys1.st) ∧ batches.length = ops.length := by
  induction ops with
  | nil =>
    intro sys sys1 batches h
    simp only [run, Option.some.injEq, Prod.mk.injEq] at h
    obtain ⟨h1, h2⟩ := h
    subst h1 h2
    simp [pushedBy]
  | cons op ops ih =>
    intro sys sys1 batches h
    simp only [run] at h
    split at h
    · simp at h
    · rename_i sysm batch hstep
      split at h
      · simp at h
      · rename_i sys2 rest hrun
        simp only [Option.some.injEq, Prod.mk.injEq] at h
        obtain ⟨h1, h2⟩ := h
        subst h1 h2
        obtain ⟨hq1, hc1⟩ := step_spec sys op sysm batch hstep
        obtain ⟨hq2, hc2, hl2⟩ := ih sysm sys2 rest hrun
        refine ⟨?_, fun hc => hc2 (hc1 hc), by simp [hl2]⟩
        simp only [List.flatten_cons, List.append_assoc, pushedBy, List.map_cons]
        rw [hq2, ← List.append_assoc, hq1]
        simp [pushedBy]

theorem run_pushMany_fresh (flags : kThread → Bool) (N : Nat) :
    ∃ sys, run (Sys.init flags) [Op.pushMany (List.range N) N] = some (sys, [[]]) ∧
      sys.st.size = N % UINT_RANGE ∧ sys.st.queue.length = N := by
  have hp := pushMany_ok (State.init flags) (List.range N) N (by simp)
  refine ⟨⟨unBlock { State.init flags with
      queue := (State.init flags).queue ++ (List.range N).take N,
      size := toUInt (((State.init flags).size : Int) + (N : Int)) }, []⟩, ?_, ?_, ?_⟩
  · simp only [run, step, Sys.init, hp]
  · simp only [unBlock_size, State.init]
    rw [toUInt_add]
    simp
  · simp [State.init]

theorem push_range_state (flags : kThread → Bool) (N : Nat) :
    (⟨List.range N, [], N, flags⟩ : State).size =
        (⟨List.range N, [], N, flags⟩ : State).queue.length ∧
      N ∉ (⟨List.range N, [], N, flags⟩ : State).queue ∧
      (push ⟨List.range N, [], N, flags⟩ N).size = (N + 1) % UINT_RANGE := by
  refine ⟨(List.length_range N).symm, ?_, push_size _ _⟩
  intro hmem
  exact Nat.lt_irrefl _ (List.mem_range.mp hmem)

/-- C1: for every ready count `R ≥ 1` (the queue holding at least `R` tasks, as it
does whenever the count is right) and every worker count `W ≥ 1`, `removeMany`
returns the batch size `max 1 (R / W)`; and it never returns anything else. -/
theorem removeMany_batch_size (s : State) (W : Nat) (nqueue : IntrusiveList uThread)
    (hR : 1 ≤ s.size) (hW : 1 ≤ W) (hq : s.size ≤ s.queue.length) :
    (∃ s1 nq, removeMany s W nqueue = .ok (((max 1 (s.size / W) : Nat) : Int), s1, nq)) ∧
      (∀ r s1 nq, removeMany s W nqueue = .ok (r, s1, nq) →
        r = ((max 1 (s.size / W) : Nat) : Int)) := by
  have hb := batch_le_count s.size W hR
  exact ⟨⟨_, _, removeMany_ok s W nqueue (by omega) (by omega)⟩,
    fun r s1 nq h => (removeMany_inv s W nqueue r s1 nq h).2.2.1⟩

/-- Witness of C1: ready count 10 with 3 workers gives 3, ready count 2 with 5
workers gives 1. -/
theorem removeMany_batch_size_witness :
    (∃ s1 nq, removeMany ⟨List.range 10, [], 10, fun _ => false⟩ 3 [] = .ok (3, s1, nq)) ∧
    (∃ s1 nq, removeMany ⟨[4, 5], [], 2, fun _ => false⟩ 5 [] = .ok (1, s1, nq)) :=
  ⟨(removeMany_batch_size ⟨List.range 10, [], 10, fun _ => false⟩ 3 []
      (by decide) (by decide) (by decide)).1,
   (removeMany_batch_size ⟨[4, 5], [], 2, fun _ => false⟩ 5 []
      (by decide) (by decide) (by decide)).1⟩

/-- C2: on a non-empty ready queue whose count is its length, with any destination
list `d` and any worker count `W ≥ 1`, `removeMany` returns `b = max 1 (size / W)`,
the destination becomes `d ++ take b queue`, the queue becomes `drop b queue`, and
the count becomes `size - b` (with `b ≤ size`, and exactly `b` tasks moved). -/
theorem removeMany_moves_head_batch (s : State) (d : IntrusiveList uThread) (W : Nat)
    (hne : s.queue ≠ []) (hI1 : s.size = s.queue.length) (hty : s.size < UINT_RANGE)
    (hW : 1 ≤ W) :
    removeMany s W d =
        .ok (((max 1 (s.size / W) : Nat) : Int),
             { s with queue := s.queue.drop (max 1 (s.size / W)),
                      size := s.size - max 1 (s.size / W) },
             d ++ s.queue.take (max 1 (s.size / W))) ∧
      max 1 (s.size / W) ≤ s.size ∧
      (s.queue.take (max 1 (s.size / W))).length = max 1 (s.size / W) ∧
      s.queue.take (max 1 (s.size / W)) ++ s.queue.drop (max 1 (s.size / W)) = s.queue := by
  have hpos : 1 ≤ s.size := by
    rw [hI1]
    exact List.length_pos.mpr hne
  have hb := batch_le_count s.size W hpos
  refine ⟨?_, hb, ?_, List.take_append_drop _ _⟩
  · rw [removeMany_ok s W d (by omega) (by omega), toUInt_sub_of_le _ _ hb hty]
  · rw [List.length_take]
    omega

/-- Witness of C2: four queued tasks, two workers, destination `[9]`. -/
theorem removeMany_moves_head_batch_witness :
    removeMany ⟨[1, 2, 3, 4], [], 4, fun _ => false⟩ 2 [9] =
      .ok (2, ⟨[3, 4], [], 2, fun _ => false⟩, [9, 1, 2]) :=
  (removeMany_moves_head_batch ⟨[1, 2, 3, 4], [], 4, fun _ => false⟩ [9] 2
    (by decide) (by decide) (by decide) (by decide)).1

/-- C3: in every run of `push`, `pushMany`, `tryPop`, `tryPopMany` and `popMany`
steps from an empty queue whose pushed tasks are pairwise distinct, no task is
lost or duplicated: a task was pushed exactly when it is still queued or in a
delivered batch; no batch repeats a task or shares one with the queue or with
another batch; delivered plus queued equals pushed in number, and once the queue
is empty everything pushed has been delivered. -/
theorem no_loss_no_duplication (flags : kThread → Bool) (ops : List Op) (sys : Sys)
    (batches : List (List uThread))
    (h : run (Sys.init flags) ops = some (sys, batches))
    (hd : (pushedBy ops).Nodup) :
    (∀ t, t ∈ pushedBy ops ↔ (t ∈ sys.st.queue ∨ ∃ b ∈ batches, t ∈ b)) ∧
      (∀ b ∈ batches, b.Nodup ∧ List.Disjoint b sys.st.queue) ∧
      sys.st.queue.Nodup ∧
      batches.Pairwise List.Disjoint ∧
      batches.flatten.length + sys.st.queue.length = (pushedBy ops).length ∧
      (sys.st.queue = [] → batches.flatten.length = (pushedBy ops).length) := by
  have hq := (run_spec ops (Sys.init flags) sys batches h).1
  simp only [Sys.init, State.init, List.nil_append] at hq
  rw [← hq] at hd
  have hfl := List.nodup_flatten.mp hd.of_append_left
  have hdis := List.disjoint_of_nodup_append hd
  refine ⟨?_, ?_, hd.of_append_right, hfl.2, ?_, ?_⟩
  · intro t
    rw [← hq, List.mem_append, List.mem_flatten]
    constructor
    · rintro (⟨b, hb, ht⟩ | ht)
      · exact Or.inr ⟨b, hb, ht⟩
      · exact Or.inl ht
    · rintro (ht | ⟨b, hb, ht⟩)
      · exact Or.inr ht
      · exact Or.inl ⟨b, hb, ht⟩
  · intro b hb
    refine ⟨hfl.1 b hb, ?_⟩
    intro t htb htq
    exact hdis (List.mem_flatten.mpr ⟨b, hb, htb⟩) htq
  · rw [← hq, List.length_append]
  · intro hnil
    rw [← hq, hnil, List.append_nil]

/-- Witness of C3: two kThreads block, five tasks arrive by `push` and `pushMany`,
and they leave through `resume`, `tryPop` and `tryPopMany`. -/
theorem no_loss_no_duplication_witness :
    ∃ sys, run (Sys.init (fun _ => false))
        [Op.popMany 1 2 [], Op.popMany 2 2 [], Op.push 7, Op.pushMany [8, 9, 10, 11] 3,
         Op.resume 2 2 [], Op.tryPop true, Op.resume 1 2 [5], Op.push 12,
         Op.tryPopMany true 1 [1]] =
        some (sys, [[], [], [], [], [7, 8], [9], [10], [], [12]]) ∧
      sys.st.queue = [] ∧
      [[], [], [], [], [7, 8], [9], [10], [], [12]].Pairwise List.Disjoint ∧
      ([[], [], [], [], [7, 8], [9], [10], [], [12]] : List (List uThread)).flatten.length = 5 :=
  ⟨_, rfl, rfl,
    (no_loss_no_duplication (fun _ => false)
      [Op.popMany 1 2 [], Op.popMany 2 2 [], Op.push 7, Op.pushMany [8, 9, 10, 11] 3,
       Op.resume 2 2 [], Op.tryPop true, Op.resume 1 2 [5], Op.push 12,
       Op.tryPopMany true 1 [1]]
      _ [[], [], [], [], [7, 8], [9], [10], [], [12]] rfl (by decide)).2.2.2.1,
    rfl⟩

/-- C4: tasks leave the ready queue in FIFO order within and across removals: in
every run from an empty queue (any worker count `≥ 1` at each removal; a count of
`0` ends the call by assertion), the delivered batches concatenated in call order,
followed by the tasks still queued, are the pushed tasks in push order. -/
theorem fifo_across_removals (flags : kThread → Bool) (ops : List Op) (sys : Sys)
    (batches : List (List uThread))
    (h : run (Sys.init flags) ops = some (sys, batches)) :
    batches.flatten ++ sys.st.queue = pushedBy ops := by
  have hq := (run_spec ops (Sys.init flags) sys batches h).1
  simpa [Sys.init, State.init] using hq

/-- Witness of C4: seven tasks pushed, removals with 3 workers. -/
theorem fifo_across_removals_witness :
    ([[], [], [1, 2], [3], [], [4]] : List (List uThread)).flatten ++ [5, 6, 7] =
      pushedBy [Op.pushMany [1, 2, 3, 4, 5, 6, 0] 6, Op.push 7, Op.tryPopMany true 3 [],
                Op.tryPop true, Op.tryPop false, Op.popMany 4 3 [9]] :=
  fifo_across_removals (fun _ => false)
    [Op.pushMany [1, 2, 3, 4, 5, 6, 0] 6, Op.push 7, Op.tryPopMany true 3 [],
     Op.tryPop true, Op.tryPop false, Op.popMany 4 3 [9]]
    ⟨⟨[5, 6, 7], [], 3, fun _ => false⟩, []⟩ [[], [], [1, 2], [3], [], [4]] rfl

/-- Counterexample to C5: one `pushMany` of `2^32` tasks onto a fresh queue
completes and leaves `size = 0` while the queue holds `2^32` tasks. -/
theorem count_wraps_counterexample :
    ∃ sys batches,
      run (Sys.init (fun _ => false)) [Op.pushMany (List.range 4294967296) 4294967296] =
        some (sys, batches) ∧
      sys.st.size = 0 ∧ sys.st.queue.length = 4294967296 ∧
      sys.st.size ≠ sys.st.queue.length := by
  obtain ⟨sys, hrun, hsize, hlen⟩ := run_pushMany_fresh (fun _ => false) 4294967296
  have h0 : sys.st.size = 0 := by
    rw [hsize]
    exact Nat.mod_self 4294967296
  refine ⟨sys, [[]], hrun, h0, hlen, ?_⟩
  rw [h0, hlen]
  exact Nat.zero_ne_add_one 4294967295

/-- C5 (amended): in the initial state and after every completed step (`push`,
`pushMany`, `tryPop`, `tryPopMany`, `popMany`), `size` equals the length of the
task sequence modulo `2^32`, hence the exact length whenever the queue holds
fewer than `2^32` tasks; and a `removeMany` that completes from such a state
keeps this. -/
theorem count_matches_length_mod (flags : kThread → Bool) (ops : List Op) (sys : Sys)
    (batches : List (List uThread))
    (h : run (Sys.init flags) ops = some (sys, batches)) :
    sys.st.size = sys.st.queue.length % UINT_RANGE ∧
      (sys.st.queue.length < UINT_RANGE → sys.st.size = sys.st.queue.length) ∧
      (∀ numkt nqueue r s1 nq, removeMany sys.st numkt nqueue = .ok (r, s1, nq) →
        s1.size = s1.queue.length % UINT_RANGE ∧
          (s1.queue.length < UINT_RANGE → s1.size = s1.queue.length)) := by
  have hc : CountOK sys.st :=
    (run_spec ops (Sys.init flags) sys batches h).2.1 (by simp [CountOK, Sys.init, State.init])
  refine ⟨hc, fun hlt => ?_, fun numkt nqueue r s1 nq hrm => ?_⟩
  · unfold CountOK at hc
    rw [hc]
    exact Nat.mod_eq_of_lt hlt
  · have hc1 : CountOK s1 := removeMany_countOK sys.st numkt nqueue r s1 nq hrm hc
    refine ⟨hc1, fun hlt => ?_⟩
    unfold CountOK at hc1
    rw [hc1]
    exact Nat.mod_eq_of_lt hlt

/-- Witness of C5 (amended): after three pushes and two removals one task is
queued and `size = 1`. -/
theorem count_matches_length_mod_witness :
    (1 : Nat) = [3].length % UINT_RANGE ∧ ([3].length < UINT_RANGE → 1 = [3].length) :=
  ⟨(count_matches_length_mod (fun _ => false)
      [Op.push 1, Op.pushMany [2, 3] 2, Op.tryPop true, Op.tryPopMany true 2 []]
      ⟨⟨[3], [], 1, fun _ => false⟩, []⟩ [[], [], [1], [2]] rfl).1,
   (count_matches_length_mod (fun _ => false)
      [Op.push 1, Op.pushMany [2, 3] 2, Op.tryPop true, Op.tryPopMany true 2 []]
      ⟨⟨[3], [], 1, fun _ => false⟩, []⟩ [[], [], [1], [2]] rfl).2.1⟩

/-- C6: in a state whose count agrees with the queue (`CountOK`, true of every
reachable state), `tryPop` returns no task exactly when the try-lock fails or
`size` is zero, and then the state is unchanged; otherwise it returns the head of
the queue, removes exactly that task and lowers `size` by one.  A failed lock and
an empty queue give the caller the same result. -/
theorem tryPop_result (s : State) (owns_lock : Bool) (hc : CountOK s) :
    ((tryPop s owns_lock).1 = none ↔ (owns_lock = false ∨ s.size = 0)) ∧
      ((owns_lock = false ∨ s.size = 0) → tryPop s owns_lock = (none, s)) ∧
      (owns_lock = true → s.size ≠ 0 →
        ∃ ut q, s.queue = ut :: q ∧ 1 ≤ s.size ∧
          tryPop s owns_lock = (some ut, { s with queue := q, size := s.size - 1 })) ∧
      (∀ s2 : State, s2.size = 0 → (tryPop s2 true).1 = (tryPop s false).1) := by
  have hfail : (owns_lock = false ∨ s.size = 0) → tryPop s owns_lock = (none, s) := by
    intro h
    unfold tryPop
    rcases h with h | h <;> simp [h]
  have hsucc : owns_lock = true → s.size ≠ 0 →
      ∃ ut q, s.queue = ut :: q ∧ 1 ≤ s.size ∧
        tryPop s owns_lock = (some ut, { s with queue := q, size := s.size - 1 }) := by
    intro ho hs
    unfold CountOK UINT_RANGE at hc
    cases hq : s.queue with
    | nil =>
      rw [hq] at hc
      exact absurd hc hs
    | cons ut q =>
      refine ⟨ut, q, rfl, by omega, ?_⟩
      have hu : toUInt ((s.size : Int) - 1) = s.size - 1 := by
        unfold toUInt
        omega
      unfold tryPop
      simp [ho, hs, hq, hu, IntrusiveList.front, IntrusiveList.pop_front]
  refine ⟨⟨fun hnone => ?_, fun h => by rw [hfail h]⟩, hfail, hsucc, fun s2 h2 => ?_⟩
  · by_contra hcon
    have ho : owns_lock = true := by
      cases owns_lock
      · exact absurd (Or.inl rfl) hcon
      · rfl
    have hs : s.size ≠ 0 := fun h0 => hcon (Or.inr h0)
    obtain ⟨ut, q, _, _, heq⟩ := hsucc ho hs
    rw [heq] at hnone
    exact Option.noConfusion hnone
  · unfold tryPop
    simp [h2]

/-- Witness of C6: a queue of three tasks, lock owned. -/
theorem tryPop_result_witness :
    ∃ ut q, ([4, 5, 6] : List uThread) = ut :: q ∧ 1 ≤ 3 ∧
      tryPop ⟨[4, 5, 6], [], 3, fun _ => false⟩ true =
        (some ut, ⟨q, [], 3 - 1, fun _ => false⟩) :=
  (tryPop_result ⟨[4, 5, 6], [], 3, fun _ => false⟩ true (by decide)).2.2.1 rfl (by decide)

/-- C7: `tryPopMany` gives `-1` with state and destination untouched when the
try-lock fails or `size` is zero; otherwise (count agreeing with the queue, at
least one worker) it returns what `removeMany` returns, a batch size `b ≥ 1`
that is the number of tasks appended to the destination; and whatever it
returns, the result is never `0` and is `-1` only in the failure case. -/
theorem tryPopMany_result (s : State) (owns_lock : Bool) (numkt : Nat)
    (nqueue : IntrusiveList uThread) (hc : CountOK s) :
    ((owns_lock = false ∨ s.size = 0) →
        tryPopMany s owns_lock numkt nqueue = .ok (-1, s, nqueue)) ∧
      (owns_lock = true → s.size ≠ 0 → 1 ≤ numkt →
        ∃ (b : Nat) (s1 : State),
          tryPopMany s owns_lock numkt nqueue = .ok ((b : Int), s1, nqueue ++ s.queue.take b) ∧
          removeMany s numkt nqueue = .ok ((b : Int), s1, nqueue ++ s.queue.take b) ∧
          1 ≤ b ∧ (nqueue ++ s.queue.take b).length = nqueue.length + b) ∧
      (∀ r s1 nq, tryPopMany s owns_lock numkt nqueue = .ok (r, s1, nq) →
        r ≠ 0 ∧ (r = -1 ↔ (owns_lock = false ∨ s.size = 0)) ∧
          (r ≠ -1 → 1 ≤ r ∧ removeMany s numkt nqueue = .ok (r, s1, nq) ∧
            (nq.length : Int) = (nqueue.length : Int) + r)) := by
  refine ⟨fun h => ?_, fun ho hs hk => ?_, fun r s1 nq h => ?_⟩
  · unfold tryPopMany
    simp [h]
  · have hpos : 1 ≤ s.size := Nat.one_le_iff_ne_zero.mpr hs
    have hb := batch_le_count s.size numkt hpos
    have hle : s.size ≤ s.queue.length := by
      unfold CountOK at hc
      rw [hc]
      exact Nat.mod_le _ _
    have hlen : max 1 (s.size / numkt) ≤ s.queue.length := le_trans hb hle
    have hrm := removeMany_ok s numkt nqueue (by omega) hlen
    refine ⟨max 1 (s.size / numkt), _, ?_, hrm, le_max_left _ _, ?_⟩
    · unfold tryPopMany
      rw [if_neg (by simp [ho, hs])]
      exact hrm
    · rw [List.length_append, List.length_take, Nat.min_eq_left hlen]
  · rcases tryPopMany_inv s owns_lock numkt nqueue r s1 nq h with
      ⟨hf, hr, _, _⟩ | ⟨ho, hs, hrm⟩
    · subst hr
      exact ⟨by decide, ⟨fun _ => hf, fun _ => rfl⟩, fun hne => absurd rfl hne⟩
    · obtain ⟨_, hlen, hr, _, hnq⟩ := removeMany_inv s numkt nqueue r s1 nq hrm
      have h1 : (1 : Int) ≤ r := by
        rw [hr]
        exact_mod_cast le_max_left 1 (s.size / numkt)
      refine ⟨by omega, ⟨fun hneg => by omega, fun hf => ?_⟩, fun _ => ⟨h1, hrm, ?_⟩⟩
      · rcases hf with hf | hf
        · rw [ho] at hf
          exact Bool.noConfusion hf
        · exact absurd hf hs
      · rw [hnq, hr, List.length_append, List.length_take, Nat.min_eq_left hlen]
        push_cast
        rfl

/-- Witness of C7: five queued tasks, two workers, lock owned: two tasks move. -/
theorem tryPopMany_result_witness :
    ∃ (b : Nat) (s1 : State),
      tryPopMany ⟨[1, 2, 3, 4, 5], [], 5, fun _ => false⟩ true 2 [8] =
        .ok ((b : Int), s1, [8] ++ ([1, 2, 3, 4, 5] : List uThread).take b) ∧
      removeMany ⟨[1, 2, 3, 4, 5], [], 5, fun _ => false⟩ 2 [8] =
        .ok ((b : Int), s1, [8] ++ ([1, 2, 3, 4, 5] : List uThread).take b) ∧
      1 ≤ b ∧ ([8] ++ ([1, 2, 3, 4, 5] : List uThread).take b).length = [8].length + b :=
  (tryPopMany_result ⟨[1, 2, 3, 4, 5], [], 5, fun _ => false⟩ true 2 [8] (by decide)).2.1
    rfl (by decide) (by decide)

/-- Counterexample to C8: with `2^32 - 1` tasks queued (count `2^32 - 1`, equal to
the length of the queue) and a task not in the queue, `push` leaves `size = 0`,
not the old count plus one. -/
theorem push_count_wraps_counterexample :
    (⟨List.range 4294967295, [], 4294967295, fun _ => false⟩ : State).size =
        (⟨List.range 4294967295, [], 4294967295, fun _ => false⟩ : State).queue.length ∧
      4294967295 ∉ (⟨List.range 4294967295, [], 4294967295, fun _ => false⟩ : State).queue ∧
      (push ⟨List.range 4294967295, [], 4294967295, fun _ => false⟩ 4294967295).size = 0 ∧
      (push ⟨List.range 4294967295, [], 4294967295, fun _ => false⟩ 4294967295).size ≠
        (⟨List.range 4294967295, [], 4294967295, fun _ => false⟩ : State).size + 1 := by
  obtain ⟨h1, h2, h3⟩ := push_range_state (fun _ => false) 4294967295
  have h0 : (push ⟨List.range 4294967295, [], 4294967295, fun _ => false⟩ 4294967295).size
      = 0 := h3.trans (Nat.mod_self 4294967296)
  refine ⟨h1, h2, h0, ?_⟩
  rw [h0]
  exact Nat.zero_ne_add_one 4294967295

/-- C8 (amended): for every state and task, `push` completes (it is a total
function), the queue becomes the old queue with the task appended, `size`
becomes the old count plus one modulo `2^32` (the old count plus one when that
is below `2^32`), and `unBlock` runs once on the state so obtained; with no
kThread blocked, `ktStack` and every `cv_flag` stay as they were. -/
theorem push_appends (s : State) (ut : uThread) :
    (push s ut).queue = s.queue ++ [ut] ∧
      (push s ut).size = (s.size + 1) % UINT_RANGE ∧
      (s.size + 1 < UINT_RANGE → (push s ut).size = s.size + 1) ∧
      push s ut =
        unBlock { s with queue := s.queue ++ [ut], size := (s.size + 1) % UINT_RANGE } ∧
      (s.ktStack = [] → (push s ut).ktStack = [] ∧ (push s ut).cv_flag = s.cv_flag) := by
  refine ⟨push_queue s ut, push_size s ut, fun hlt => ?_, ?_, fun hnil => ?_⟩
  · rw [push_size]
    exact Nat.mod_eq_of_lt hlt
  · have hu : toUInt ((s.size : Int) + 1) = (s.size + 1) % UINT_RANGE := toUInt_add s.size 1
    unfold push IntrusiveList.push_back
    rw [hu]
  · unfold push
    rw [unBlock_nil { s with queue := s.queue.push_back ut,
                             size := toUInt ((s.size : Int) + 1) } hnil]
    exact ⟨hnil, rfl⟩

/-- Witness of C8 (amended): pushing task 6 behind tasks 4 and 5, nobody blocked. -/
theorem push_appends_witness :
    (push ⟨[4, 5], [], 2, fun _ => false⟩ 6).size = 2 + 1 ∧
      (push ⟨[4, 5], [], 2, fun _ => false⟩ 6).ktStack = [] :=
  ⟨(push_appends ⟨[4, 5], [], 2, fun _ => false⟩ 6).2.2.1 (by decide),
   ((push_appends ⟨[4, 5], [], 2, fun _ => false⟩ 6).2.2.2.2 rfl).1⟩

/-- Counterexample to C9: with one kThread blocked, `pushMany` of `2^32` tasks onto
an empty queue completes and leaves `size = 0`: the count did not grow by `K`. -/
theorem pushMany_count_wraps_counterexample :
    ∃ s1, pushMany ⟨[], [5], 0, fun _ => false⟩ (List.range 4294967296) 4294967296 =
        .ok (s1, (List.range 4294967296).drop 4294967296) ∧
      s1.size = 0 ∧
      s1.size ≠ (⟨[], [5], 0, fun _ => false⟩ : State).size + 4294967296 := by
  have hp := pushMany_ok ⟨[], [5], 0, fun _ => false⟩ (List.range 4294967296) 4294967296
    (Nat.le_of_eq (List.length_range 4294967296).symm)
  have h0 : (unBlock { (⟨[], [5], 0, fun _ => false⟩ : State) with
      queue := (⟨[], [5], 0, fun _ => false⟩ : State).queue ++
        (List.range 4294967296).take 4294967296,
      size := toUInt (((⟨[], [5], 0, fun _ => false⟩ : State).size : Int) +
        ((4294967296 : Nat) : Int)) }).size = 0 := by
    rw [unBlock_size]
    exact toUInt_add 0 4294967296
  refine ⟨_, hp, h0, ?_⟩
  rw [h0]
  exact Nat.zero_ne_add_one 4294967295

/-- C9 (amended): for a source list holding at least `K` tasks, `pushMany` completes,
appends the first `K` tasks of the list in order to the tail of the queue and
leaves the rest in the list; `size` grows by `K` modulo `2^32` (by exactly `K`
when the sum is below `2^32`); whatever `K` is, with a kThread blocked exactly
the one at the back of `ktStack` is taken off and its `cv_flag` set, every other
flag unchanged, and with nobody blocked nothing is woken. -/
theorem pushMany_appends_wakes_one (s : State) (utList : IntrusiveList uThread) (K : Nat)
    (hK : K ≤ utList.length) :
    ∃ s1, pushMany s utList K = .ok (s1, utList.drop K) ∧
      s1.queue = s.queue ++ utList.take K ∧
      s1.size = (s.size + K) % UINT_RANGE ∧
      (s.size + K < UINT_RANGE → s1.size = s.size + K) ∧
      (∀ rest kt, s.ktStack = rest ++ [kt] →
        s1.ktStack = rest ∧ s1.ktStack.length + 1 = s.ktStack.length ∧
          s1.cv_flag = Function.update s.cv_flag kt true ∧ s1.cv_flag kt = true ∧
          ∀ k, k ≠ kt → s1.cv_flag k = s.cv_flag k) ∧
      (s.ktStack = [] → s1.ktStack = [] ∧ s1.cv_flag = s.cv_flag) := by
  refine ⟨_, pushMany_ok s utList K hK, ?_, ?_, fun hlt => ?_, fun rest kt hst => ?_,
    fun hnil => ?_⟩
  · simp
  · rw [unBlock_size]
    exact toUInt_add s.size K
  · rw [unBlock_size]
    exact (toUInt_add s.size K).trans (Nat.mod_eq_of_lt hlt)
  · rw [unBlock_snoc { s with queue := s.queue ++ utList.take K,
                              size := toUInt ((s.size : Int) + (K : Int)) } rest kt hst]
    refine ⟨rfl, by simp [hst], rfl, by simp, fun k hk => ?_⟩
    simp [Function.update, hk]
  · rw [unBlock_nil { s with queue := s.queue ++ utList.take K,
                             size := toUInt ((s.size : Int) + (K : Int)) } hnil]
    exact ⟨hnil, rfl⟩

/-- Witness of C9 (amended): three of four tasks pushed while kThreads 1 and 2 are
blocked: kThread 2 is woken, kThread 1 stays. -/
theorem pushMany_appends_wakes_one_witness :
    ∃ s1, pushMany ⟨[7], [1, 2], 1, fun _ => false⟩ [8, 9, 10, 11] 3 = .ok (s1, [11]) ∧
      s1.queue = [7, 8, 9, 10] ∧ s1.size = 4 ∧ s1.ktStack = [1] ∧
      s1.cv_flag 2 = true ∧ s1.cv_flag 1 = false :=
  match pushMany_appends_wakes_one ⟨[7], [1, 2], 1, fun _ => false⟩ [8, 9, 10, 11] 3
      (by decide) with
  | ⟨s1, h1, h2, _, h4, h5, _⟩ =>
    ⟨s1, h1, h2, h4 (by decide), (h5 [1] 2 rfl).1, (h5 [1] 2 rfl).2.2.2.1,
      (h5 [1] 2 rfl).2.2.2.2 1 (by decide)⟩

/-- C10: LIFO wake order.  Whatever the blocked-kThread stack `older ++ [kt]`,
the `unBlock` run by `push` takes off and flags `kt`, the kThread at the back,
and no other; and a `popMany` on an empty queue puts its caller at the back.
So when `A`, then `B`, then `C` block and one task is pushed, `C` is flagged and
removed while `A` and `B` stay, in this order, flags clear. -/
theorem lifo_wake_order (s : State) (older : List kThread) (kt : kThread) (ut : uThread)
    (hst : s.ktStack = older ++ [kt]) :
    ((push s ut).ktStack = older ∧ (push s ut).cv_flag kt = true ∧
        ∀ k, k ≠ kt → (push s ut).cv_flag k = s.cv_flag k) ∧
      (∀ (cur : kThread) (numkt : Nat) (nqueue : IntrusiveList uThread), s.size = 0 →
        popMany s cur numkt nqueue =
          .ok ({ s with ktStack := older ++ [kt] ++ [cur],
                        cv_flag := Function.update s.cv_flag cur false },
               PopResult.suspended)) ∧
      (∀ (s0 : State) (A B C : kThread) (nA nB nC : Nat) (qA qB qC : IntrusiveList uThread),
        s0.size = 0 → A ≠ C → B ≠ C →
        ∃ sA sB sC,
          popMany s0 A nA qA = .ok (sA, PopResult.suspended) ∧
          popMany sA B nB qB = .ok (sB, PopResult.suspended) ∧
          popMany sB C nC qC = .ok (sC, PopResult.suspended) ∧
          sC.ktStack = s0.ktStack ++ [A, B, C] ∧
          (push sC ut).ktStack = s0.ktStack ++ [A, B] ∧
          (push sC ut).cv_flag C = true ∧
          (push sC ut).cv_flag A = false ∧ (push sC ut).cv_flag B = false) := by
  have hpush : ∀ (t : State) (rest : List kThread) (k0 : kThread),
      t.ktStack = rest ++ [k0] →
      (push t ut).ktStack = rest ∧
        (push t ut).cv_flag = Function.update t.cv_flag k0 true := by
    intro t rest k0 ht
    unfold push
    rw [unBlock_snoc { t with queue := t.queue.push_back ut,
                              size := toUInt ((t.size : Int) + 1) } rest k0 ht]
    exact ⟨rfl, rfl⟩
  refine ⟨?_, ?_, ?_⟩
  · obtain ⟨h1, h2⟩ := hpush s older kt hst
    refine ⟨h1, by simp [h2], fun k hk => ?_⟩
    rw [h2]
    simp [Function.update, hk]
  · intro cur numkt nqueue h0
    unfold popMany
    simp [h0, hst, IntrusiveList.push_back]
  · intro s0 A B C nA nB nC qA qB qC h0 hAC hBC
    refine ⟨{ s0 with ktStack := s0.ktStack ++ [A],
                      cv_flag := Function.update s0.cv_flag A false },
      { s0 with ktStack := s0.ktStack ++ [A] ++ [B],
                cv_flag := Function.update (Function.update s0.cv_flag A false) B false },
      { s0 with ktStack := s0.ktStack ++ [A] ++ [B] ++ [C],
                cv_flag := Function.update
                  (Function.update (Function.update s0.cv_flag A false) B false) C false },
      ?_, ?_, ?_, ?_, ?_⟩
    · unfold popMany
      simp [h0, IntrusiveList.push_back]
    · unfold popMany
      simp [h0, IntrusiveList.push_back]
    · unfold popMany
      simp [h0, IntrusiveList.push_back]
    · simp
    · obtain ⟨h1, h2⟩ := hpush
        { s0 with ktStack := s0.ktStack ++ [A] ++ [B] ++ [C],
                  cv_flag := Function.update
                    (Function.update (Function.update s0.cv_flag A false) B false) C false }
        (s0.ktStack ++ [A] ++ [B]) C rfl
      refine ⟨h1.trans (by simp), by rw [h2]; simp, ?_, ?_⟩
      · rw [h2]
        by_cases hAB : A = B
        · simp [Function.update, hAC, hAB, hBC]
        · simp [Function.update, hAC, hAB]
      · rw [h2]
        simp [Function.update, hBC]

/-- Witness of C10: kThreads 1, 2, 3 block in this order on a fresh queue, then task
7 is pushed: the stack is `[1, 2]`, kThread 3 is flagged, kThreads 1 and 2 are not. -/
theorem lifo_wake_order_witness :
    ∃ sys, run (Sys.init (fun _ => false))
        [Op.popMany 1 4 [], Op.popMany 2 4 [], Op.popMany 3 4 []] = some (sys, [[], [], []]) ∧
      sys.st.ktStack = [1, 2] ++ [3] ∧
      (push sys.st 7).ktStack = [1, 2] ∧ (push sys.st 7).cv_flag 3 = true ∧
      (push sys.st 7).cv_flag 1 = sys.st.cv_flag 1 ∧
      (push sys.st 7).cv_flag 2 = sys.st.cv_flag 2 ∧
      sys.st.cv_flag 1 = false ∧ sys.st.cv_flag 2 = false :=
  ⟨_, rfl, rfl,
    (lifo_wake_order _ [1, 2] 3 7 rfl).1.1,
    (lifo_wake_order _ [1, 2] 3 7 rfl).1.2.1,
    (lifo_wake_order _ [1, 2] 3 7 rfl).1.2.2 1 (by decide),
    (lifo_wake_order _ [1, 2] 3 7 rfl).1.2.2 2 (by decide),
    rfl, rfl⟩

/-! ### `popMany`: returning and waiting -/

theorem popMany_returned_inv (s : State) (kt : kThread) (numkt : Nat)
    (nqueue : IntrusiveList uThread) (s2 : State) (r : Int) (nq : IntrusiveList uThread)
    (h : popMany s kt numkt nqueue = .ok (s2, PopResult.returned r nq)) :
    s.size ≠ 0 ∧ popMany_remove s numkt nqueue = .ok (s2, PopResult.returned r nq) := by
  unfold popMany at h
  split at h
  · simp at h
  · rename_i hs
    exact ⟨hs, h⟩

theorem popMany_resume_returned_inv (s : State) (kt : kThread) (numkt : Nat)
    (nqueue : IntrusiveList uThread) (s2 : State) (r : Int) (nq : IntrusiveList uThread)
    (h : popMany_resume s kt numkt nqueue = .ok (s2, PopResult.returned r nq)) :
    s.size ≠ 0 ∧ s.cv_flag kt = true ∧
      popMany_remove s numkt nqueue = .ok (s2, PopResult.returned r nq) := by
  unfold popMany_resume at h
  split at h
  · simp at h
  · rename_i hcond
    refine ⟨fun h0 => hcond (Or.inl h0), ?_, h⟩
    cases hf : s.cv_flag kt
    · exact absurd (Or.inr hf) hcond
    · rfl

theorem popMany_remove_ok (s : State) (numkt : Nat) (nqueue : IntrusiveList uThread)
    (s1 : State) (r : Int) (nq : IntrusiveList uThread)
    (h : removeMany s numkt nqueue = .ok (r, s1, nq)) :
    popMany_remove s numkt nqueue =
      .ok (if s1.size ≠ 0 then unBlock s1 else s1, PopResult.returned r nq) := by
  unfold popMany_remove
  rw [h]

theorem countOK_size_le (s : State) (hc : CountOK s) : s.size ≤ s.queue.length := by
  unfold CountOK at hc
  rw [hc]
  exact Nat.mod_le _ _

theorem countOK_size_lt (s : State) (hc : CountOK s) : s.size < UINT_RANGE := by
  unfold CountOK at hc
  rw [hc]
  exact Nat.mod_lt _ (by decide)

theorem removeMany_ok_of_countOK (s : State) (numkt : Nat) (nqueue : IntrusiveList uThread)
    (hc : CountOK s) (hk : 1 ≤ numkt) (hs : s.size ≠ 0) :
    max 1 (s.size / numkt) ≤ s.size ∧ max 1 (s.size / numkt) ≤ s.queue.length ∧
      removeMany s numkt nqueue =
        .ok (((max 1 (s.size / numkt) : Nat) : Int),
             { s with queue := s.queue.drop (max 1 (s.size / numkt)),
                      size := s.size - max 1 (s.size / numkt) },
             nqueue ++ s.queue.take (max 1 (s.size / numkt))) := by
  have hb := batch_le_count s.size numkt (Nat.one_le_iff_ne_zero.mpr hs)
  have hlen := le_trans hb (countOK_size_le s hc)
  refine ⟨hb, hlen, ?_⟩
  rw [removeMany_ok s numkt nqueue (by omega) hlen,
    toUInt_sub_of_le _ _ hb (countOK_size_lt s hc)]

/-- C11: whenever `popMany` returns (from its call or after a wait), the result is
at least 1 and is the number of tasks appended to the destination; the state is
that left by `removeMany` with one `unBlock` applied when `size` is still nonzero
and none when the queue was drained.  With `W ≥ 1` and a nonzero count it does
return (after a wait: when the caller's `cv_flag` is set). -/
theorem popMany_result (s : State) (kt : kThread) (numkt : Nat)
    (nqueue : IntrusiveList uThread) (hc : CountOK s) :
    (1 ≤ numkt → s.size ≠ 0 →
        ∃ s2 r nq, popMany s kt numkt nqueue = .ok (s2, PopResult.returned r nq)) ∧
      (1 ≤ numkt → s.size ≠ 0 → s.cv_flag kt = true →
        ∃ s2 r nq, popMany_resume s kt numkt nqueue = .ok (s2, PopResult.returned r nq)) ∧
      (∀ s2 r nq,
        (popMany s kt numkt nqueue = .ok (s2, PopResult.returned r nq) ∨
          popMany_resume s kt numkt nqueue = .ok (s2, PopResult.returned r nq)) →
        1 ≤ r ∧ nq = nqueue ++ s.queue.take r.toNat ∧
          (nq.length : Int) = (nqueue.length : Int) + r ∧
          ∃ s1, removeMany s numkt nqueue = .ok (r, s1, nq) ∧
            (s1.size ≠ 0 → s2 = unBlock s1) ∧
            (s1.size = 0 → s2 = s1) ∧
            (s1.queue = [] → s2 = s1)) := by
  refine ⟨fun hk hs => ?_, fun hk hs hf => ?_, fun s2 r nq h => ?_⟩
  · obtain ⟨_, _, hrm⟩ := removeMany_ok_of_countOK s numkt nqueue hc hk hs
    have hp : popMany s kt numkt nqueue = popMany_remove s numkt nqueue := by
      unfold popMany
      rw [if_neg hs]
    rw [hp]
    exact ⟨_, _, _, popMany_remove_ok s numkt nqueue _ _ _ hrm⟩
  · obtain ⟨_, _, hrm⟩ := removeMany_ok_of_countOK s numkt nqueue hc hk hs
    have hp : popMany_resume s kt numkt nqueue = popMany_remove s numkt nqueue := by
      unfold popMany_resume
      rw [if_neg (by simp [hs, hf])]
    rw [hp]
    exact ⟨_, _, _, popMany_remove_ok s numkt nqueue _ _ _ hrm⟩
  · have hrem : popMany_remove s numkt nqueue = .ok (s2, PopResult.returned r nq) := by
      rcases h with h | h
      · exact (popMany_returned_inv s kt numkt nqueue s2 r nq h).2
      · exact (popMany_resume_returned_inv s kt numkt nqueue s2 r nq h).2.2
    obtain ⟨r1, s1, nq1, hrm, hpr, hs2⟩ := popMany_remove_inv s numkt nqueue s2 _ hrem
    simp only [PopResult.returned.injEq] at hpr
    obtain ⟨hr, hnq⟩ := hpr
    subst hr hnq
    obtain ⟨_, hlen, hr, _, hnq⟩ := removeMany_inv s numkt nqueue r s1 nq hrm
    have hc1 : CountOK s1 := removeMany_countOK s numkt nqueue r s1 nq hrm hc
    have h1 : (1 : Int) ≤ r := by
      rw [hr]
      exact_mod_cast le_max_left 1 (s.size / numkt)
    refine ⟨h1, ?_, ?_, s1, hrm, fun hne => ?_, fun h0 => ?_, fun hnil => ?_⟩
    · rw [hnq, hr]
      rfl
    · rw [hnq, hr, List.length_append, List.length_take, Nat.min_eq_left hlen]
      push_cast
      rfl
    · rw [hs2, if_pos hne]
    · rw [hs2, if_neg (by simp [h0])]
    · have h0 : s1.size = 0 := by
        unfold CountOK at hc1
        rw [hc1, hnil]
        rfl
      rw [hs2, if_neg (by simp [h0])]

/-- Witness of C11: six tasks queued, three workers, kThread 9 blocked: `popMany`
returns 2 with tasks 1 and 2 appended, and wakes kThread 9 since tasks remain. -/
theorem popMany_result_witness :
    (∃ s2 r nq, popMany ⟨[1, 2, 3, 4, 5, 6], [9], 6, fun _ => false⟩ 4 3 [0] =
        .ok (s2, PopResult.returned r nq)) ∧
      ((1 : Int) ≤ 2 ∧ ([0, 1, 2] : List uThread) = [0] ++ [1, 2, 3, 4, 5, 6].take (2 : Int).toNat ∧
        (([0, 1, 2] : List uThread).length : Int) = (([0] : List uThread).length : Int) + 2 ∧
        ∃ s1, removeMany ⟨[1, 2, 3, 4, 5, 6], [9], 6, fun _ => false⟩ 3 [0] =
            .ok (2, s1, [0, 1, 2]) ∧
          (s1.size ≠ 0 →
            (⟨[3, 4, 5, 6], [], 4, Function.update (fun _ => false) 9 true⟩ : State) =
              unBlock s1) ∧
          (s1.size = 0 →
            (⟨[3, 4, 5, 6], [], 4, Function.update (fun _ => false) 9 true⟩ : State) = s1) ∧
          (s1.queue = [] →
            (⟨[3, 4, 5, 6], [], 4, Function.update (fun _ => false) 9 true⟩ : State) = s1)) :=
  ⟨(popMany_result ⟨[1, 2, 3, 4, 5, 6], [9], 6, fun _ => false⟩ 4 3 [0] (by decide)).1
      (by decide) (by decide),
   (popMany_result ⟨[1, 2, 3, 4, 5, 6], [9], 6, fun _ => false⟩ 4 3 [0] (by decide)).2.2
      ⟨[3, 4, 5, 6], [], 4, Function.update (fun _ => false) 9 true⟩ 2 [0, 1, 2]
      (Or.inl rfl)⟩

/-- C12 (the code at the failing interleaving): kThread 1 calls `popMany` on the
fresh queue and waits; `push(7)` takes it off `ktStack` and sets its `cv_flag`;
the `tryPop` of another kThread takes task 7; the `cv.wait` of kThread 1 returns,
`size` is 0, and it waits again (`popMany_resume` ends suspended, state unchanged).
Now kThread 1 is suspended in the wait loop and `ktStack` is empty, so the
`unBlock` of a later `push(8)` finds nobody to take off the stack or to flag. -/
theorem blocked_worker_off_stack :
    ∃ sys0 sys,
      run (Sys.init (fun _ => false)) [Op.popMany 1 2 [], Op.push 7, Op.tryPop true] =
        some (sys0, [[], [], [7]]) ∧
      popMany_resume sys0.st 1 2 [] = .ok (sys0.st, PopResult.suspended) ∧
      run (Sys.init (fun _ => false))
          [Op.popMany 1 2 [], Op.push 7, Op.tryPop true, Op.resume 1 2 []] =
        some (sys, [[], [], [7], []]) ∧
      1 ∈ sys.waiting ∧ 1 ∉ sys.st.ktStack ∧ sys.st.ktStack = [] ∧
      (push sys.st 8).ktStack = [] ∧ (push sys.st 8).cv_flag = sys.st.cv_flag ∧
      (push sys.st 8).queue = [8] :=
  ⟨⟨⟨[], [], 0, Function.update (Function.update (fun _ => false) 1 false) 1 true⟩, [1]⟩,
   ⟨⟨[], [], 0, Function.update (Function.update (fun _ => false) 1 false) 1 true⟩, [1]⟩,
   rfl, rfl, rfl, by decide, by decide, rfl, rfl, rfl, rfl⟩

/-- C13: with zero workers reported, `removeMany` ends by the assertion, whatever
the state (also where a transfer would not be possible: the assertion comes
before the batch size and the transfer), and so do its callers once they reach
it; no new state comes out of such a call.  With one worker or more the
assertion never fails. -/
theorem removeMany_zero_workers (s : State) (nqueue : IntrusiveList uThread) :
    removeMany s 0 nqueue = .error Fault.assertion ∧
      (s.size ≠ 0 → tryPopMany s true 0 nqueue = .error Fault.assertion) ∧
      (s.size ≠ 0 → ∀ kt, popMany s kt 0 nqueue = .error Fault.assertion) ∧
      (∀ (waiting : List kThread), s.size ≠ 0 →
        step ⟨s, waiting⟩ (Op.tryPopMany true 0 nqueue) = none) ∧
      (∀ numkt, 1 ≤ numkt → removeMany s numkt nqueue ≠ .error Fault.assertion) := by
  have h0 : removeMany s 0 nqueue = .error Fault.assertion := by
    unfold removeMany
    rfl
  have ht : s.size ≠ 0 → tryPopMany s true 0 nqueue = .error Fault.assertion := by
    intro hs
    unfold tryPopMany
    rw [if_neg (by simp [hs])]
    exact h0
  refine ⟨h0, ht, fun hs kt => ?_, fun waiting hs => ?_, fun numkt hk => ?_⟩
  · unfold popMany popMany_remove
    rw [if_neg hs, h0]
  · simp only [step, ht hs]
  · unfold removeMany
    rw [if_neg (by omega)]
    simp only
    split
    · intro h
      exact Fault.noConfusion (Except.error.inj h)
    · intro h
      exact Except.noConfusion h

/-- Witness of C13: three queued tasks; zero workers give the assertion failure,
one worker does not. -/
theorem removeMany_zero_workers_witness :
    tryPopMany ⟨[1, 2, 3], [], 3, fun _ => false⟩ true 0 [] = .error Fault.assertion ∧
      removeMany ⟨[1, 2, 3], [], 3, fun _ => false⟩ 1 [] ≠ .error Fault.assertion :=
  ⟨(removeMany_zero_workers ⟨[1, 2, 3], [], 3, fun _ => false⟩ []).2.1 (by decide),
   (removeMany_zero_workers ⟨[1, 2, 3], [], 3, fun _ => false⟩ []).2.2.2.2 1 (by decide)⟩

/-- C14: with at least two workers and a ready count of at least two (the count
agreeing with the queue), `removeMany` takes `b < R` tasks: at least one task
stays in the ready queue, and the count left is at least one. -/
theorem removeMany_leaves_work (s : State) (W : Nat) (nqueue : IntrusiveList uThread)
    (hc : CountOK s) (hW : 2 ≤ W) (hR : 2 ≤ s.size) :
    ∃ (b : Nat) (s1 : State),
      removeMany s W nqueue = .ok ((b : Int), s1, nqueue ++ s.queue.take b) ∧
      b = max 1 (s.size / W) ∧ b < s.size ∧
      s1.queue = s.queue.drop b ∧ s1.queue ≠ [] ∧
      s1.size = s.size - b ∧ 1 ≤ s1.size := by
  obtain ⟨_, _, hrm⟩ := removeMany_ok_of_countOK s W nqueue hc (by omega) (by omega)
  have hle := countOK_size_le s hc
  have hdiv : s.size / W < s.size := Nat.div_lt_self (by omega) (by omega)
  have hb : max 1 (s.size / W) < s.size := by
    generalize s.size / W = q at hdiv
    omega
  refine ⟨max 1 (s.size / W), _, hrm, rfl, hb, rfl, ?_, rfl, ?_⟩
  · intro hnil
    have hl : (s.queue.drop (max 1 (s.size / W))).length = 0 := by
      rw [show s.queue.drop (max 1 (s.size / W)) = [] from hnil]
      rfl
    rw [List.length_drop] at hl
    omega
  · show 1 ≤ s.size - max 1 (s.size / W)
    omega

/-- Witness of C14: two queued tasks, two workers: one task is taken, one stays. -/
theorem removeMany_leaves_work_witness :
    ∃ (b : Nat) (s1 : State),
      removeMany ⟨[5, 6], [], 2, fun _ => false⟩ 2 [] =
        .ok ((b : Int), s1, [] ++ ([5, 6] : List uThread).take b) ∧
      b = max 1 (2 / 2) ∧ b < 2 ∧
      s1.queue = ([5, 6] : List uThread).drop b ∧ s1.queue ≠ [] ∧
      s1.size = 2 - b ∧ 1 ≤ s1.size :=
  removeMany_leaves_work ⟨[5, 6], [], 2, fun _ => false⟩ 2 [] (by decide) (by decide)
    (by decide)

/-! ### Monotonicity of the batch size -/

theorem batch_mono_workers (R W W1 : Nat) (hW : 1 ≤ W) (hWW : W ≤ W1) :
    max 1 (R / W1) ≤ max 1 (R / W) := by
  have h : R / W1 ≤ R / W := Nat.div_le_div_left hWW (by omega)
  generalize R / W1 = a at h
  generalize R / W = b at h
  omega

theorem batch_mono_count (R R1 W : Nat) (hRR : R ≤ R1) :
    max 1 (R / W) ≤ max 1 (R1 / W) := by
  have h : R / W ≤ R1 / W := Nat.div_le_div_right hRR
  generalize R / W = a at h
  generalize R1 / W = b at h
  omega

theorem successiveBatches_succ (numkt n : Nat) (s : State) (hc : CountOK s)
    (hk : 1 ≤ numkt) (hs : s.size ≠ 0) :
    successiveBatches numkt (n + 1) s =
      ((max 1 (s.size / numkt) : Nat) : Int) ::
        successiveBatches numkt n
          { s with queue := s.queue.drop (max 1 (s.size / numkt)),
                   size := s.size - max 1 (s.size / numkt) } := by
  obtain ⟨_, _, hrm⟩ := removeMany_ok_of_countOK s numkt [] hc hk hs
  simp only [successiveBatches, if_neg hs, hrm]

theorem countOK_after_batch (s : State) (numkt : Nat) (hc : CountOK s) (hk : 1 ≤ numkt)
    (hs : s.size ≠ 0) :
    CountOK { s with queue := s.queue.drop (max 1 (s.size / numkt)),
                     size := s.size - max 1 (s.size / numkt) } := by
  obtain ⟨_, _, hrm⟩ := removeMany_ok_of_countOK s numkt [] hc hk hs
  exact removeMany_countOK s numkt [] _ _ _ hrm hc

theorem successiveBatches_le_first (numkt : Nat) (hk : 1 ≤ numkt) (n : Nat) :
    ∀ s : State, CountOK s →
      ∀ x ∈ successiveBatches numkt n s, x ≤ ((max 1 (s.size / numkt) : Nat) : Int) := by
  induction n with
  | zero =>
    intro s _ x hx
    simp [successiveBatches] at hx
  | succ n ih =>
    intro s hc x hx
    by_cases hs : s.size = 0
    · simp [successiveBatches, hs] at hx
    · rw [successiveBatches_succ numkt n s hc hk hs, List.mem_cons] at hx
      rcases hx with hx | hx
      · rw [hx]
      · have h1 := ih _ (countOK_after_batch s numkt hc hk hs) x hx
        have h2 : max 1 ((s.size - max 1 (s.size / numkt)) / numkt) ≤ max 1 (s.size / numkt) :=
          batch_mono_count _ _ numkt (Nat.sub_le _ _)
        exact le_trans h1 (by exact_mod_cast h2)

theorem successiveBatches_pairwise (numkt : Nat) (hk : 1 ≤ numkt) (n : Nat) :
    ∀ s : State, CountOK s →
      (successiveBatches numkt n s).Pairwise (fun a b => b ≤ a) := by
  induction n with
  | zero =>
    intro s _
    simp [successiveBatches]
  | succ n ih =>
    intro s hc
    by_cases hs : s.size = 0
    · simp [successiveBatches, hs]
    · rw [successiveBatches_succ numkt n s hc hk hs, List.pairwise_cons]
      refine ⟨fun x hx => ?_, ih _ (countOK_after_batch s numkt hc hk hs)⟩
      have h1 := successiveBatches_le_first numkt hk n _
        (countOK_after_batch s numkt hc hk hs) x hx
      have h2 : max 1 ((s.size - max 1 (s.size / numkt)) / numkt) ≤ max 1 (s.size / numkt) :=
        batch_mono_count _ _ numkt (Nat.sub_le _ _)
      exact le_trans h1 (by exact_mod_cast h2)

theorem successiveBatches_sum (numkt : Nat) (hk : 1 ≤ numkt) (n : Nat) :
    ∀ s : State, CountOK s → s.size ≤ n →
      (successiveBatches numkt n s).sum = (s.size : Int) := by
  induction n with
  | zero =>
    intro s _ hn
    have h0 : s.size = 0 := by omega
    simp [successiveBatches, h0]
  | succ n ih =>
    intro s hc hn
    by_cases hs : s.size = 0
    · simp [successiveBatches, hs]
    · have hb := batch_le_count s.size numkt (Nat.one_le_iff_ne_zero.mpr hs)
      have h1 : 1 ≤ max 1 (s.size / numkt) := le_max_left _ _
      rw [successiveBatches_succ numkt n s hc hk hs, List.sum_cons,
        ih _ (countOK_after_batch s numkt hc hk hs) (by
          show s.size - max 1 (s.size / numkt) ≤ n
          omega)]
      show ((max 1 (s.size / numkt) : Nat) : Int) +
        ((s.size - max 1 (s.size / numkt) : Nat) : Int) = (s.size : Int)
      omega

/-- C15: the batch size returned by `removeMany` is monotone: with the same ready
count it does not grow when the worker count grows, with the same worker count
it does not shrink when the ready count grows; hence successive `removeMany`
calls on one queue (fixed `W ≥ 1`, no push in between) return non-increasing
batch sizes, which add up to the ready count once the queue is drained. -/
theorem batch_size_monotone (s : State) (W : Nat) (hc : CountOK s) (hW : 1 ≤ W) :
    (∀ (W1 : Nat) (d d1 : IntrusiveList uThread) (r r1 : Int) (s1 s2 : State)
        (nq nq1 : IntrusiveList uThread), W ≤ W1 →
        removeMany s W d = .ok (r, s1, nq) → removeMany s W1 d1 = .ok (r1, s2, nq1) →
        r1 ≤ r) ∧
      (∀ (t : State) (d d1 : IntrusiveList uThread) (r r1 : Int) (s1 s2 : State)
        (nq nq1 : IntrusiveList uThread), s.size ≤ t.size →
        removeMany s W d = .ok (r, s1, nq) → removeMany t W d1 = .ok (r1, s2, nq1) →
        r ≤ r1) ∧
      (∀ n, (successiveBatches W n s).Pairwise (fun a b => b ≤ a)) ∧
      (∀ n, s.size ≤ n → (successiveBatches W n s).sum = (s.size : Int)) := by
  refine ⟨?_, ?_, fun n => successiveBatches_pairwise W hW n s hc,
    fun n hn => successiveBatches_sum W hW n s hc hn⟩
  · intro W1 d d1 r r1 s1 s2 nq nq1 hWW h1 h2
    rw [(removeMany_inv s W d r s1 nq h1).2.2.1, (removeMany_inv s W1 d1 r1 s2 nq1 h2).2.2.1]
    exact_mod_cast batch_mono_workers s.size W W1 hW hWW
  · intro t d d1 r r1 s1 s2 nq nq1 hRR h1 h2
    rw [(removeMany_inv s W d r s1 nq h1).2.2.1, (removeMany_inv t W d1 r1 s2 nq1 h2).2.2.1]
    exact_mod_cast batch_mono_count s.size t.size W hRR

/-- Witness of C15: ten queued tasks and three workers: the successive batch
sizes are 3, 2, 1, 1, 1, 1, 1. -/
theorem batch_size_monotone_witness :
    ([3, 2, 1, 1, 1, 1, 1] : List Int).Pairwise (fun a b => b ≤ a) ∧
      ([3, 2, 1, 1, 1, 1, 1] : List Int).sum = ((10 : Nat) : Int) :=
  ⟨(batch_size_monotone ⟨List.range 10, [], 10, fun _ => false⟩ 3 (by decide)
      (by decide)).2.2.1 10,
   (batch_size_monotone ⟨List.range 10, [], 10, fun _ => false⟩ 3 (by decide)
      (by decide)).2.2.2 10 (by decide)⟩

/-- C16: `empty()` (a function of the state that returns only a boolean) is true
exactly when the ready sequence has no task; and on a queue where it is true
(count agreeing with the queue), `push(t)` followed by a `tryPop` that owns the
lock returns `t` and leaves the queue empty again, with count zero. -/
theorem empty_then_push_retrievable (s : State) (t : uThread) (hc : CountOK s) :
    (empty s = true ↔ s.queue = []) ∧
      (empty s = true ↔ s.queue.length = 0) ∧
      (empty s = true →
        tryPop (push s t) true = (some t, { push s t with queue := [], size := 0 }) ∧
          empty (tryPop (push s t) true).2 = true) := by
  have hiff : empty s = true ↔ s.queue = [] := by
    unfold empty IntrusiveList.empty
    exact List.isEmpty_iff
  refine ⟨hiff, hiff.trans List.length_eq_zero.symm, fun he => ?_⟩
  have hq : s.queue = [] := hiff.mp he
  have h0 : s.size = 0 := by
    unfold CountOK at hc
    rw [hc, hq]
    rfl
  have hpq : (push s t).queue = [t] := by
    rw [push_queue, hq]
    rfl
  have hps : (push s t).size = 1 := by
    rw [push_size, h0]
    rfl
  have htp : tryPop (push s t) true = (some t, { push s t with queue := [], size := 0 }) := by
    unfold tryPop
    rw [if_pos ⟨rfl, by rw [hps]; decide⟩, hpq, hps]
    rfl
  refine ⟨htp, ?_⟩
  rw [htp]
  rfl

/-- Witness of C16: the fresh queue is empty; task 7 pushed on it comes back from
`tryPop`. -/
theorem empty_then_push_retrievable_witness :
    tryPop (push (State.init (fun _ => false)) 7) true =
        (some 7, { push (State.init (fun _ => false)) 7 with queue := [], size := 0 }) ∧
      empty (tryPop (push (State.init (fun _ => false)) 7) true).2 = true :=
  (empty_then_push_retrievable (State.init (fun _ => false)) 7 (by decide)).2.2 rfl

/-- C17: a `cv.wait` return in `popMany` leads on to `removeMany` only when `size`
is nonzero and the caller's `cv_flag` is set; with `size` zero or the flag clear
the kThread waits again, state unchanged.  Both call sites reach `removeMany`
only with the lock owned and `size ≥ 1`: otherwise `tryPopMany` gives `-1` and
`popMany` suspends, and the assertion inside `removeMany` (zero workers) can only
fire in a call made with `size ≥ 1`. -/
theorem removeMany_called_with_work (s : State) (kt : kThread) (numkt : Nat)
    (nqueue : IntrusiveList uThread) (owns_lock : Bool) :
    (∀ s2 r nq, popMany_resume s kt numkt nqueue = .ok (s2, PopResult.returned r nq) →
        1 ≤ s.size ∧ s.cv_flag kt = true) ∧
      ((s.size = 0 ∨ s.cv_flag kt = false) →
        popMany_resume s kt numkt nqueue = .ok (s, PopResult.suspended)) ∧
      ((owns_lock = false ∨ s.size = 0) →
        tryPopMany s owns_lock numkt nqueue = .ok (-1, s, nqueue)) ∧
      (owns_lock = true → 1 ≤ s.size →
        tryPopMany s owns_lock numkt nqueue = removeMany s numkt nqueue) ∧
      (s.size = 0 → ∃ s2, popMany s kt numkt nqueue = .ok (s2, PopResult.suspended)) ∧
      (1 ≤ s.size → popMany s kt numkt nqueue = popMany_remove s numkt nqueue) ∧
      (1 ≤ s.size → s.cv_flag kt = true →
        popMany_resume s kt numkt nqueue = popMany_remove s numkt nqueue) ∧
      (tryPopMany s owns_lock 0 nqueue = .error Fault.assertion →
        owns_lock = true ∧ 1 ≤ s.size) ∧
      (popMany s kt 0 nqueue = .error Fault.assertion → 1 ≤ s.size) ∧
      (popMany_resume s kt 0 nqueue = .error Fault.assertion →
        1 ≤ s.size ∧ s.cv_flag kt = true) := by
  have hwait : (s.size = 0 ∨ s.cv_flag kt = false) →
      ∀ W, popMany_resume s kt W nqueue = .ok (s, PopResult.suspended) := by
    intro h W
    unfold popMany_resume
    rw [if_pos h]
  have hsent : (owns_lock = false ∨ s.size = 0) →
      ∀ W, tryPopMany s owns_lock W nqueue = .ok (-1, s, nqueue) := by
    intro h W
    unfold tryPopMany
    rw [if_pos h]
  have hsusp : s.size = 0 →
      ∀ W, ∃ s2, popMany s kt W nqueue = .ok (s2, PopResult.suspended) := by
    intro h W
    unfold popMany
    rw [if_pos h]
    exact ⟨_, rfl⟩
  refine ⟨fun s2 r nq h => ?_, fun h => hwait h numkt, fun h => hsent h numkt,
    fun ho hs => ?_, fun h => hsusp h numkt, fun hs => ?_, fun hs hf => ?_,
    fun h => ?_, fun h => ?_, fun h => ?_⟩
  · obtain ⟨h1, h2, _⟩ := popMany_resume_returned_inv s kt numkt nqueue s2 r nq h
    exact ⟨Nat.one_le_iff_ne_zero.mpr h1, h2⟩
  · unfold tryPopMany
    rw [if_neg (by simp [ho]; omega)]
  · unfold popMany
    rw [if_neg (by omega)]
  · unfold popMany_resume
    rw [if_neg (by simp [hf]; omega)]
  · by_contra hcon
    have hor : owns_lock = false ∨ s.size = 0 := by
      by_cases ho : owns_lock = true
      · right
        by_contra hs
        exact hcon ⟨ho, Nat.one_le_iff_ne_zero.mpr hs⟩
      · left
        simpa using ho
    rw [hsent hor 0] at h
    exact Except.noConfusion h
  · by_contra hcon
    obtain ⟨s2, h2⟩ := hsusp (by omega) 0
    rw [h2] at h
    exact Except.noConfusion h
  · by_contra hcon
    have hor : s.size = 0 ∨ s.cv_flag kt = false := by
      by_cases hs : s.size = 0
      · exact Or.inl hs
      · right
        cases hf : s.cv_flag kt
        · rfl
        · exact absurd ⟨Nat.one_le_iff_ne_zero.mpr hs, hf⟩ hcon
    rw [hwait hor 0] at h
    exact Except.noConfusion h

/-- Witness of C17: kThread 1 waits on the fresh queue; a `cv.wait` return with
`size = 0` makes it wait again, and `tryPopMany` there gives `-1`. -/
theorem removeMany_called_with_work_witness :
    popMany_resume ⟨[], [1], 0, fun _ => false⟩ 1 2 [] =
        .ok (⟨[], [1], 0, fun _ => false⟩, PopResult.suspended) ∧
      tryPopMany ⟨[], [1], 0, fun _ => false⟩ true 2 [] =
        .ok (-1, ⟨[], [1], 0, fun _ => false⟩, []) :=
  ⟨(removeMany_called_with_work ⟨[], [1], 0, fun _ => false⟩ 1 2 [] true).2.1 (Or.inl rfl),
   (removeMany_called_with_work ⟨[], [1], 0, fun _ => false⟩ 1 2 [] true).2.2.1
     (Or.inr rfl)⟩

/-- C18: for every ready count `1 ≤ R < 2^32` (the queue holding at least `R`
tasks) and every worker count `W ≥ 1`, the batch size `b` of `removeMany`
satisfies `1 ≤ b ≤ R`: the transfer asks for no more than the queue holds, and
`size -= b` does not wrap: the new `size` is the integer `R - b`. -/
theorem batch_within_count (s : State) (W : Nat) (nqueue : IntrusiveList uThread)
    (hR : 1 ≤ s.size) (hty : s.size < UINT_RANGE) (hW : 1 ≤ W)
    (hq : s.size ≤ s.queue.length) :
    1 ≤ max 1 (s.size / W) ∧ max 1 (s.size / W) ≤ s.size ∧
      max 1 (s.size / W) ≤ s.queue.length ∧
      IntrusiveList.transferFrom nqueue s.queue (max 1 (s.size / W)) ≠ none ∧
      ∃ s1 nq, removeMany s W nqueue = .ok (((max 1 (s.size / W) : Nat) : Int), s1, nq) ∧
        (s1.size : Int) = (s.size : Int) - ((max 1 (s.size / W) : Nat) : Int) ∧
        s1.size < s.size := by
  have hb := batch_le_count s.size W hR
  have h1 : 1 ≤ max 1 (s.size / W) := le_max_left _ _
  have hlen : max 1 (s.size / W) ≤ s.queue.length := le_trans hb hq
  refine ⟨h1, hb, hlen, ?_, _, _, removeMany_ok s W nqueue (by omega) hlen, ?_, ?_⟩
  · unfold IntrusiveList.transferFrom
    rw [if_pos hlen]
    exact Option.some_ne_none _
  · show ((toUInt ((s.size : Int) - ((max 1 (s.size / W) : Nat) : Int)) : Nat) : Int) = _
    rw [toUInt_sub_of_le _ _ hb hty]
    omega
  · show toUInt ((s.size : Int) - ((max 1 (s.size / W) : Nat) : Int)) < s.size
    rw [toUInt_sub_of_le _ _ hb hty]
    omega

/-- Witness of C18: seven queued tasks, two workers: the batch is 3 and the count
left is 4. -/
theorem batch_within_count_witness :
    1 ≤ max 1 (7 / 2) ∧ max 1 (7 / 2) ≤ 7 ∧
      max 1 (7 / 2) ≤ (List.range 7).length ∧
      IntrusiveList.transferFrom [] (List.range 7) (max 1 (7 / 2)) ≠ none ∧
      ∃ s1 nq, removeMany ⟨List.range 7, [], 7, fun _ => false⟩ 2 [] =
          .ok (((max 1 (7 / 2) : Nat) : Int), s1, nq) ∧
        (s1.size : Int) = ((7 : Nat) : Int) - ((max 1 (7 / 2) : Nat) : Int) ∧
        s1.size < 7 :=
  batch_within_count ⟨List.range 7, [], 7, fun _ => false⟩ 2 [] (by decide) (by decide)
    (by decide) (by decide)

/-! ### The blocked-kThread stack -/

theorem wakeStep_unBlock (s : State) : WakeStep s (unBlock s) := by
  rcases List.eq_nil_or_concat s.ktStack with h | ⟨rest, kt, h⟩
  · left
    rw [unBlock_nil s h]
    exact ⟨rfl, rfl⟩
  · rw [List.concat_eq_append] at h
    right
    refine ⟨rest, kt, h, ?_, ?_⟩ <;> rw [unBlock_snoc s rest kt h]

theorem wakeStep_of_frame (s t s1 : State) (hk : t.ktStack = s.ktStack)
    (hf : t.cv_flag = s.cv_flag) (h : WakeStep t s1) : WakeStep s s1 := by
  unfold WakeStep at h ⊢
  rw [hk, hf] at h
  exact h

theorem wakeStep_push (s : State) (ut : uThread) : WakeStep s (push s ut) := by
  unfold push
  exact wakeStep_of_frame s _ _ rfl rfl (wakeStep_unBlock _)

theorem wakeStep_pushMany (s : State) (utList : IntrusiveList uThread) (count : Nat)
    (s1 : State) (rest : IntrusiveList uThread)
    (h : pushMany s utList count = .ok (s1, rest)) : WakeStep s s1 := by
  obtain ⟨_, hs1, _⟩ := pushMany_inv s utList count s1 rest h
  rw [hs1]
  exact wakeStep_of_frame s _ _ rfl rfl (wakeStep_unBlock _)

theorem tryPop_frame (s : State) (owns_lock : Bool) :
    (tryPop s owns_lock).2.ktStack = s.ktStack ∧
      (tryPop s owns_lock).2.cv_flag = s.cv_flag := by
  unfold tryPop
  split <;> exact ⟨rfl, rfl⟩

theorem tryPopMany_frame (s : State) (owns_lock : Bool) (numkt : Nat)
    (nqueue : IntrusiveList uThread) (r : Int) (s1 : State) (nq : IntrusiveList uThread)
    (h : tryPopMany s owns_lock numkt nqueue = .ok (r, s1, nq)) :
    s1.ktStack = s.ktStack ∧ s1.cv_flag = s.cv_flag := by
  rcases tryPopMany_inv s owns_lock numkt nqueue r s1 nq h with ⟨_, _, hs, _⟩ | ⟨_, _, hrm⟩
  · rw [hs]
    exact ⟨rfl, rfl⟩
  · exact removeMany_frame s numkt nqueue r s1 nq hrm

theorem wakeStep_popMany_remove (s : State) (numkt : Nat) (nqueue : IntrusiveList uThread)
    (s2 : State) (pr : PopResult) (h : popMany_remove s numkt nqueue = .ok (s2, pr)) :
    WakeStep s s2 := by
  obtain ⟨r, s1, nq, hrm, _, hs2⟩ := popMany_remove_inv s numkt nqueue s2 pr h
  obtain ⟨hk, hf⟩ := removeMany_frame s numkt nqueue r s1 nq hrm
  rw [hs2]
  split
  · exact wakeStep_of_frame s s1 _ hk hf (wakeStep_unBlock s1)
  · exact Or.inl ⟨hk, hf⟩

theorem wakeStep_stackOK (s s1 : State) (w : List kThread) (hw : WakeStep s s1)
    (hok : StackOK ⟨s, w⟩) :
    StackOK ⟨s1, w⟩ ∧ (∀ k ∈ s1.ktStack, k ∈ s.ktStack) ∧
      (∀ k, s.cv_flag k = false → s1.cv_flag k = true →
        k ∈ s.ktStack ∧ k ∉ s1.ktStack) := by
  obtain ⟨hnd, hfl⟩ := hok
  simp only at hnd hfl
  rcases hw with ⟨hk, hf⟩ | ⟨rest, kt, hst, hk, hf⟩
  · refine ⟨⟨?_, ?_⟩, ?_, ?_⟩
    · show s1.ktStack.Nodup
      rw [hk]
      exact hnd
    · intro k hk1
      show s1.cv_flag k = false ∧ k ∈ w
      rw [hf]
      rw [hk] at hk1
      exact hfl k hk1
    · intro k hk1
      rw [hk] at hk1
      exact hk1
    · intro k h0 h1
      rw [hf, h0] at h1
      exact Bool.noConfusion h1
  · rw [hst] at hnd hfl
    have hnd2 := List.nodup_append.mp hnd
    have hnot : kt ∉ rest := fun hmem => hnd2.2.2 hmem (List.mem_singleton.mpr rfl)
    refine ⟨⟨?_, ?_⟩, ?_, ?_⟩
    · show s1.ktStack.Nodup
      rw [hk]
      exact hnd2.1
    · intro k hk1
      show s1.cv_flag k = false ∧ k ∈ w
      rw [hk] at hk1
      have hne : k ≠ kt := fun heq => hnot (heq ▸ hk1)
      rw [hf, Function.update_noteq hne]
      exact hfl k (List.mem_append_left _ hk1)
    · intro k hk1
      rw [hk] at hk1
      rw [hst]
      exact List.mem_append_left _ hk1
    · intro k h0 h1
      have heq : k = kt := by
        by_contra hne
        rw [hf, Function.update_noteq hne, h0] at h1
        exact Bool.noConfusion h1
      rw [heq, hst, hk]
      exact ⟨List.mem_append_right _ (List.mem_singleton.mpr rfl), hnot⟩

theorem step_stackOK (sys : Sys) (op : Op) (sys1 : Sys) (batch : List uThread)
    (h : step sys op = some (sys1, batch)) (hok : StackOK sys) :
    StackOK sys1 ∧
      (∀ k, sys.st.cv_flag k = false → sys1.st.cv_flag k = true →
        k ∈ sys.st.ktStack ∧ k ∉ sys1.st.ktStack) := by
  cases op with
  | push ut =>
    simp only [step, Option.some.injEq, Prod.mk.injEq] at h
    obtain ⟨h1, h2⟩ := h
    subst h1 h2
    obtain ⟨ha, _, hc⟩ := wakeStep_stackOK sys.st _ sys.waiting (wakeStep_push sys.st ut) hok
    exact ⟨ha, hc⟩
  | pushMany utList count =>
    simp only [step] at h
    split at h
    · rename_i s rest heq
      simp only [Option.some.injEq, Prod.mk.injEq] at h
      obtain ⟨h1, h2⟩ := h
      subst h1 h2
      obtain ⟨ha, _, hc⟩ := wakeStep_stackOK sys.st _ sys.waiting
        (wakeStep_pushMany _ _ _ _ _ heq) hok
      exact ⟨ha, hc⟩
    · simp at h
  | tryPop owns_lock =>
    simp only [step, Option.some.injEq, Prod.mk.injEq] at h
    obtain ⟨h1, h2⟩ := h
    subst h1 h2
    obtain ⟨hk, hf⟩ := tryPop_frame sys.st owns_lock
    obtain ⟨ha, _, hc⟩ := wakeStep_stackOK sys.st _ sys.waiting (Or.inl ⟨hk, hf⟩) hok
    exact ⟨ha, hc⟩
  | tryPopMany owns_lock numkt nqueue =>
    simp only [step] at h
    split at h
    · rename_i r s nq heq
      simp only [Option.some.injEq, Prod.mk.injEq] at h
      obtain ⟨h1, h2⟩ := h
      subst h1 h2
      obtain ⟨ha, _, hc⟩ := wakeStep_stackOK sys.st _ sys.waiting
        (Or.inl (tryPopMany_frame _ _ _ _ _ _ _ heq)) hok
      exact ⟨ha, hc⟩
    · simp at h
  | popMany kt numkt nqueue =>
    simp only [step] at h
    split at h
    · simp at h
    · rename_i hnotw
      split at h
      · rename_i s r nq heq
        simp only [Option.some.injEq, Prod.mk.injEq] at h
        obtain ⟨h1, h2⟩ := h
        subst h1 h2
        obtain ⟨_, hrem⟩ := popMany_returned_inv _ _ _ _ _ _ _ heq
        obtain ⟨ha, _, hc⟩ := wakeStep_stackOK sys.st _ sys.waiting
          (wakeStep_popMany_remove _ _ _ _ _ hrem) hok
        exact ⟨ha, hc⟩
      · rename_i s heq
        simp only [Option.some.injEq, Prod.mk.injEq] at h
        obtain ⟨h1, h2⟩ := h
        subst h1 h2
        have hs : s = { sys.st with ktStack := sys.st.ktStack ++ [kt],
                                    cv_flag := Function.update sys.st.cv_flag kt false } := by
          unfold popMany at heq
          split at heq
          · simp only [Except.ok.injEq, Prod.mk.injEq, IntrusiveList.push_back] at heq
            exact heq.1.symm
          · obtain ⟨_, _, _, _, hpr, _⟩ := popMany_remove_inv _ _ _ _ _ heq
            exact PopResult.noConfusion hpr
        obtain ⟨hnd, hfl⟩ := hok
        have hnot : kt ∉ sys.st.ktStack := fun hmem => hnotw (hfl kt hmem).2
        subst hs
        refine ⟨⟨?_, ?_⟩, ?_⟩
        · show (sys.st.ktStack ++ [kt]).Nodup
          refine List.Nodup.append hnd (List.nodup_singleton kt) ?_
          intro k hk1 hk2
          rw [List.mem_singleton] at hk2
          exact hnot (hk2 ▸ hk1)
        · intro k hk1
          show Function.update sys.st.cv_flag kt false k = false ∧ k ∈ kt :: sys.waiting
          have hk2 : k ∈ sys.st.ktStack ++ [kt] := hk1
          rw [List.mem_append, List.mem_singleton] at hk2
          rcases hk2 with hk2 | hk2
          · have hne : k ≠ kt := fun heq2 => hnot (heq2 ▸ hk2)
            rw [Function.update_noteq hne]
            exact ⟨(hfl k hk2).1, List.mem_cons_of_mem _ (hfl k hk2).2⟩
          · rw [hk2, Function.update_same]
            exact ⟨rfl, List.mem_cons_self _ _⟩
        · intro k h0 h1
          have h1b : Function.update sys.st.cv_flag kt false k = true := h1
          by_cases hkk : k = kt
          · rw [hkk, Function.update_same] at h1b
            exact Bool.noConfusion h1b
          · rw [Function.update_noteq hkk, h0] at h1b
            exact Bool.noConfusion h1b
      · simp at h
  | resume kt numkt nqueue =>
    simp only [step] at h
    split at h
    · split at h
      · rename_i s r nq heq
        simp only [Option.some.injEq, Prod.mk.injEq] at h
        obtain ⟨h1, h2⟩ := h
        subst h1 h2
        obtain ⟨_, hflag, hrem⟩ := popMany_resume_returned_inv _ _ _ _ _ _ _ heq
        obtain ⟨ha, hsub, hc⟩ := wakeStep_stackOK sys.st _ sys.waiting
          (wakeStep_popMany_remove _ _ _ _ _ hrem) hok
        have hnot : kt ∉ sys.st.ktStack := by
          intro hmem
          rw [(hok.2 kt hmem).1] at hflag
          exact Bool.noConfusion hflag
        refine ⟨⟨ha.1, fun k hk1 => ⟨(ha.2 k hk1).1, ?_⟩⟩, hc⟩
        have hne : k ≠ kt := fun heq2 => hnot (heq2 ▸ hsub k hk1)
        exact (List.mem_erase_of_ne hne).mpr (ha.2 k hk1).2
      · rename_i s heq
        simp only [Option.some.injEq, Prod.mk.injEq] at h
        obtain ⟨h1, h2⟩ := h
        subst h1 h2
        have hs : s = sys.st := by
          unfold popMany_resume at heq
          split at heq
          · simp only [Except.ok.injEq, Prod.mk.injEq] at heq
            exact heq.1.symm
          · obtain ⟨_, _, _, _, hpr, _⟩ := popMany_remove_inv _ _ _ _ _ heq
            exact PopResult.noConfusion hpr
        subst hs
        refine ⟨hok, fun k h0 h1 => ?_⟩
        rw [h0] at h1
        exact Bool.noConfusion h1
      · simp at h
    · simp at h

theorem run_stackOK (ops : List Op) :
    ∀ (sys sys1 : Sys) (batches : List (List uThread)),
      run sys ops = some (sys1, batches) → StackOK sys → StackOK sys1 := by
  induction ops with
  | nil =>
    intro sys sys1 batches h hok
    simp only [run, Option.some.injEq, Prod.mk.injEq] at h
    rw [← h.1]
    exact hok
  | cons op ops ih =>
    intro sys sys1 batches h hok
    simp only [run] at h
    split at h
    · simp at h
    · rename_i sysm batch hstep
      split at h
      · simp at h
      · rename_i sys2 rest hrun
        simp only [Option.some.injEq, Prod.mk.injEq] at h
        rw [← h.1]
        exact ih sysm sys2 rest hrun (step_stackOK sys op sysm batch hstep hok).1

/-- C19: in every state reached by atomic steps from a fresh queue, no kThread is
twice on `ktStack`, and every kThread on it has its `cv_flag` clear (and is
suspended in `cv.wait`); and in any further step a `cv_flag` goes from clear to
set only for a kThread that this very step takes off `ktStack`. -/
theorem blocked_stack_flags_clear (flags : kThread → Bool) (ops : List Op) (sys : Sys)
    (batches : List (List uThread))
    (h : run (Sys.init flags) ops = some (sys, batches)) :
    sys.st.ktStack.Nodup ∧
      (∀ kt ∈ sys.st.ktStack, sys.st.cv_flag kt = false) ∧
      (∀ kt ∈ sys.st.ktStack, kt ∈ sys.waiting) ∧
      (∀ op sys1 batch, step sys op = some (sys1, batch) →
        ∀ k, sys.st.cv_flag k = false → sys1.st.cv_flag k = true →
          k ∈ sys.st.ktStack ∧ k ∉ sys1.st.ktStack) := by
  have h0 : StackOK (Sys.init flags) := by
    refine ⟨List.nodup_nil, fun kt hk => ?_⟩
    exact absurd hk (List.not_mem_nil kt)
  have hok : StackOK sys := run_stackOK ops (Sys.init flags) sys batches h h0
  exact ⟨hok.1, fun kt hk => (hok.2 kt hk).1, fun kt hk => (hok.2 kt hk).2,
    fun op sys1 batch hstep => (step_stackOK sys op sys1 batch hstep hok).2⟩

/-- Witness of C19: kThreads 1 and 2 block, task 7 is pushed: kThread 2 is taken
off and flagged, kThread 1 stays on the stack with its flag clear. -/
theorem blocked_stack_flags_clear_witness :
    ∃ sys, run (Sys.init (fun _ => true)) [Op.popMany 1 2 [], Op.popMany 2 2 [], Op.push 7] =
        some (sys, [[], [], []]) ∧
      sys.st.ktStack = [1] ∧ sys.st.cv_flag 2 = true ∧
      sys.st.ktStack.Nodup ∧ (∀ kt ∈ sys.st.ktStack, sys.st.cv_flag kt = false) :=
  ⟨_, rfl, rfl, rfl,
    (blocked_stack_flags_clear (fun _ => true)
      [Op.popMany 1 2 [], Op.popMany 2 2 [], Op.push 7] _ [[], [], []] rfl).1,
    (blocked_stack_flags_clear (fun _ => true)
      [Op.popMany 1 2 [], Op.popMany 2 2 [], Op.push 7] _ [[], [], []] rfl).2.1⟩

/-- C20: `tryPop` and `tryPopMany`, failing or not, leave `ktStack` and every
`cv_flag` as they were, whatever is left in the queue; `unBlock` is run by `push`
and `pushMany` (once) and by the removal of `popMany` (once, when `size` is still
nonzero). -/
theorem try_removals_frame (s : State) (owns_lock : Bool) (numkt : Nat)
    (nqueue : IntrusiveList uThread) :
    ((tryPop s owns_lock).2.ktStack = s.ktStack ∧
        (tryPop s owns_lock).2.cv_flag = s.cv_flag) ∧
      (∀ r s1 nq, tryPopMany s owns_lock numkt nqueue = .ok (r, s1, nq) →
        s1.ktStack = s.ktStack ∧ s1.cv_flag = s.cv_flag) ∧
      (∀ ut, push s ut =
        unBlock { s with queue := s.queue.push_back ut,
                         size := toUInt ((s.size : Int) + 1) }) ∧
      (∀ utList count s1 rest, pushMany s utList count = .ok (s1, rest) →
        s1 = unBlock { s with queue := s.queue ++ utList.take count,
                              size := toUInt ((s.size : Int) + (count : Int)) }) ∧
      (∀ s2 pr, popMany_remove s numkt nqueue = .ok (s2, pr) →
        ∃ r s1 nq, removeMany s numkt nqueue = .ok (r, s1, nq) ∧
          s1.ktStack = s.ktStack ∧ s1.cv_flag = s.cv_flag ∧
          s2 = (if s1.size ≠ 0 then unBlock s1 else s1)) := by
  refine ⟨tryPop_frame s owns_lock,
    fun r s1 nq h => tryPopMany_frame s owns_lock numkt nqueue r s1 nq h,
    fun ut => rfl,
    fun utList count s1 rest h => (pushMany_inv s utList count s1 rest h).2.1,
    fun s2 pr h => ?_⟩
  obtain ⟨r, s1, nq, hrm, _, hs2⟩ := popMany_remove_inv s numkt nqueue s2 pr h
  obtain ⟨hk, hf⟩ := removeMany_frame s numkt nqueue r s1 nq hrm
  exact ⟨r, s1, nq, hrm, hk, hf, hs2⟩

/-- Witness of C20: four tasks queued and kThread 9 blocked: `tryPopMany` with two
workers moves two tasks, two remain, and kThread 9 is still on the stack,
unflagged. -/
theorem try_removals_frame_witness :
    (⟨[3, 4], [9], 2, fun _ => false⟩ : State).ktStack =
        (⟨[1, 2, 3, 4], [9], 4, fun _ => false⟩ : State).ktStack ∧
      (⟨[3, 4], [9], 2, fun _ => false⟩ : State).cv_flag =
        (⟨[1, 2, 3, 4], [9], 4, fun _ => false⟩ : State).cv_flag :=
  (try_removals_frame ⟨[1, 2, 3, 4], [9], 4, fun _ => false⟩ true 2 []).2.1
    2 ⟨[3, 4], [9], 2, fun _ => false⟩ [1, 2] rfl

end UThreads
